import Mathlib

/-!
Verification of the echopype Echoview-export conversion utilities
(`ecs_parser.py`, `evr_parser.py`, `ev_parser.py`) against their
natural-language specification.

The Python modules are shallowly embedded: an open text file becomes a
`List String` of its lines (line terminators already removed, which is what
`readline().rstrip('\n')` / `.strip()` observe); Python's behaviour of
`readline()` returning the empty string at end of file is modelled by
`pyReadline`; fallible operations (`list[i]`, `int(...)`, `list.pop()`)
return `Except PyErr`.  The one genuinely non-terminating loop in the source
(`advance_to_section`, which scans `readline()` results forever once the
file is exhausted) is modelled twice: a fuel-indexed direct transcription
`advance_to_section_fuel`, and a total function `advance_to_section` whose
`none` result is proved (`advance_fuel_none_of_none`) to coincide with the
fuelled loop returning `none` at every fuel, i.e. with divergence.
-/

set_option autoImplicit false

deriving instance DecidableEq for Except

/-- Python exception classes that the embedded code can raise. -/
inductive PyErr where
  /-- `IndexError`: a list subscript or `pop` out of range. -/
  | indexError
  /-- `ValueError`: e.g. `int('')` on a non-numeric string. -/
  | valueError
  /-- `NameError`: a local variable referenced before assignment. -/
  | nameError
  deriving Repr, DecidableEq

/-- A parsed settings value: a raw string, or `np.nan` recorded for a field
whose value slot holds the literal `#` (commented out, no value). -/
inductive Val where
  | s (v : String)
  | nan
  deriving Repr, DecidableEq

/-- Python `dict` with string keys, modelled as an insertion-ordered
association list whose keys are kept unique by `dictInsert`. -/
abbrev Assoc (α : Type) : Type := List (String × α)

/-- The keys of a dict, in insertion order. -/
def keysOf {α : Type} (d : Assoc α) : List String := d.map Prod.fst

/-- `d[k]` as a total lookup. -/
def alookup {α : Type} : Assoc α → String → Option α
  | [], _ => none
  | kv :: rest, k => if kv.1 = k then some kv.2 else alookup rest k

/-- `d[k] = v` on a Python dict: an existing key keeps its position and gets
the new value; a new key is appended. -/
def dictInsert {α : Type} (d : Assoc α) (k : String) (v : α) : Assoc α :=
  if k ∈ keysOf d then
    d.map (fun kv => if kv.1 = k then (k, v) else kv)
  else d ++ [(k, v)]

/-- `d.update(kvs)`: repeated `dictInsert`. -/
def dictUpdate {α : Type} (d : Assoc α) (kvs : List (String × α)) : Assoc α :=
  kvs.foldl (fun acc kv => dictInsert acc kv.1 kv.2) d

/-- `for k, v in src.items(): target[k] = v`. -/
def copyInto {α : Type} (target src : Assoc α) : Assoc α :=
  src.foldl (fun acc kv => dictInsert acc kv.1 kv.2) target

/-- `dict.fromkeys(ks, nan)`: every key mapped to `nan`, duplicates collapsed. -/
def fromKeysNan (ks : List String) : Assoc Val :=
  ks.foldl (fun acc k => dictInsert acc k Val.nan) []

/-- `open_file.readline()` over the remaining lines: at end of file Python
returns the empty string and the cursor stays put. -/
def pyReadline : List String → String × List String
  | [] => ("", [])
  | l :: ls => (l, ls)

/-- Does `needle` start `hay`? (`List`-level substring machinery.) -/
def charsStart : List Char → List Char → Bool
  | [], _ => true
  | _ :: _, [] => false
  | a :: as, b :: bs => a = b && charsStart as bs

/-- Does `needle` occur inside `hay`? -/
def charsSub : List Char → List Char → Bool
  | n, [] => n.isEmpty
  | n, c :: cs => charsStart n (c :: cs) || charsSub n cs

/-- Python's `needle in hay` on strings. -/
def strContains (needle hay : String) : Bool :=
  charsSub needle.toList hay.toList

/-- Python `s.split(' ')` on the character list: split at every single
space, preserving empty tokens. -/
def splitSpace : List Char → List (List Char)
  | [] => [[]]
  | c :: cs =>
    if c = ' ' then [] :: splitSpace cs
    else
      match splitSpace cs with
      | t :: ts => (c :: t) :: ts
      | [] => [[c]]

/-- Python `s.split(' ')`. -/
def pySplit (s : String) : List String :=
  (splitSpace s.data).map (fun cs => String.mk cs)

/-- Whitespace stripped from both ends (Python `s.strip()`). -/
def trimChars (l : List Char) : List Char :=
  ((l.dropWhile Char.isWhitespace).reverse.dropWhile Char.isWhitespace).reverse

/-- Python `s.strip()`. -/
def pyStrip (s : String) : String :=
  String.mk (trimChars s.data)

/-- `line.strip().split(' ')`, the ECS parser's tokenizer
(`EvParserBase.read_line` with `split=True`). -/
def stripSplit (line : String) : List String :=
  pySplit (pyStrip line)

/-- `line[i]` on a token list. -/
def pyIx (l : List String) (n : Nat) : Except PyErr String :=
  match l.get? n with
  | some v => .ok v
  | none => .error .indexError

/-- Leading decimal digits of a character list, with the rest. -/
def takeDigits : List Char → List Char × List Char
  | [] => ([], [])
  | c :: rest =>
    if c.isDigit then
      let (a, b) := takeDigits rest
      (c :: a, b)
    else ([], c :: rest)

/-- Numeric value of a digit list. -/
def digitsToNat (l : List Char) : Nat :=
  l.foldl (fun a c => 10 * a + (c.toNat - 48)) 0

/-- Python `int(s)`: optional sign, then at least one digit (surrounding
whitespace stripped); anything else raises `ValueError` (`none` here). -/
def pyInt (s : String) : Option Int :=
  match trimChars s.data with
  | [] => none
  | c :: rest =>
    if c = '-' then
      if rest.isEmpty || !rest.all Char.isDigit then none
      else some (-(digitsToNat rest : Int))
    else if c = '+' then
      if rest.isEmpty || !rest.all Char.isDigit then none
      else some (digitsToNat rest : Int)
    else if (c :: rest).all Char.isDigit then some (digitsToNat (c :: rest) : Int)
    else none

/-- Unsigned decimal numeral `digits+ ('.' digits+)?`, as an exact rational;
models the numeric shape `pandas.read_csv` recognises on the values these
files contain. -/
def parseRatPos (l : List Char) : Option Rat :=
  let (ip, rest) := takeDigits l
  if ip.isEmpty then none
  else
    match rest with
    | [] => some (mkRat (digitsToNat ip) 1)
    | '.' :: fp =>
      if fp.isEmpty || !fp.all Char.isDigit then none
      else some (mkRat (digitsToNat ip * 10 ^ fp.length + digitsToNat fp) (10 ^ fp.length))
    | _ => none

/-- Signed decimal numeral; `none` means `pandas` keeps the cell as a string. -/
def parseRat (s : String) : Option Rat :=
  match s.toList with
  | [] => none
  | c :: rest => if c = '-' then (parseRatPos rest).map Neg.neg else parseRatPos (c :: rest)

/-- A value as `pandas` materialises it after `read_csv` type inference:
either a string cell or a parsed number. -/
inductive PdVal where
  | s (v : String)
  | n (v : Rat)
  deriving Repr, DecidableEq

/-! ## `ecs_parser.py` — `CalibrationParser` -/

/-- One calibration record (`CalibrationParser.parse_files` output for one
file): fileset settings, named source-cal blocks, local settings. -/
structure CalRecord where
  fileset : Assoc Val
  sourcecal : Assoc (Assoc Val)
  localcal : Assoc Val
  deriving Repr, DecidableEq

/-- The field/value extraction performed on one settings line
(`_parse_settings` loop body): `idx = 0 if line[0] != '#' else 1`,
`field = line[idx]`, `val = line[idx + 2]` (the token between them is never
looked at), `val = nan if val == '#' else val`. -/
def settingsField (toks : List String) : Except PyErr (String × Val) := do
  let idx := if toks.headD "" ≠ "#" then 0 else 1
  let field ← pyIx toks idx
  let rawv ← pyIx toks (idx + 2)
  pure (field, if rawv = "#" then Val.nan else Val.s rawv)

/-- `CalibrationParser._parse_settings`: read tokenized lines into a dict
until a line tokenizes to a single element (that sentinel line is consumed);
reading at end of file yields `''`, which tokenizes to `['']` and also
terminates the loop. -/
def parse_settings (acc : Assoc Val) : List String → Except PyErr (Assoc Val × List String)
  | [] => .ok (acc, [])
  | l :: ls =>
    let toks := stripSplit l
    if toks.length = 1 then .ok (acc, ls)
    else
      match settingsField toks with
      | .error e => .error e
      | .ok fv => parse_settings (dictInsert acc fv.1 fv.2) ls

/-- `CalibrationParser._parse_sourcecal`: repeatedly read a tokenized line;
while its first token is `SourceCal`, parse a settings block and store it
under the tokens joined with `_`; the first non-matching line ends the loop
(that line has been consumed).  At end of file the read yields `['']`, whose
first token is not `SourceCal`, so the loop returns. -/
def parse_sourcecal_fuel : Nat → Assoc (Assoc Val) → List String → Except PyErr (Assoc (Assoc Val) × List String)
  | _, acc, [] => .ok (acc, [])
  | 0, acc, l :: ls => .ok (acc, l :: ls)
  | fuel + 1, acc, l :: ls =>
    let toks := stripSplit l
    if toks.headD "" = "SourceCal" then
      match parse_settings [] ls with
      | .error e => .error e
      | .ok sr => parse_sourcecal_fuel fuel (dictInsert acc (String.intercalate "_" toks) sr.1) sr.2
    else .ok (acc, ls)

/-- `CalibrationParser._parse_sourcecal` proper.  The source loop consumes at
least one line per iteration, so `lines.length` iterations always suffice;
`parse_sourcecal_fuel_adequate` shows the bound is never hit. -/
def parse_sourcecal (acc : Assoc (Assoc Val)) (lines : List String) :
    Except PyErr (Assoc (Assoc Val) × List String) :=
  parse_sourcecal_fuel lines.length acc lines

/-- Fuel-indexed transcription of `advance_to_section` in
`CalibrationParser.parse_files`: `while cont: line = fid.readline(); if
section in line: cont = False`, then two further `readline()` calls discard
the bottom of the heading box and a blank line.  One unit of fuel is one
loop iteration; the source loop itself has no bound. -/
def advance_to_section_fuel : Nat → String → List String → Option (List String)
  | 0, _, _ => none
  | fuel + 1, sec, lines =>
    let (l, rest) := pyReadline lines
    if strContains sec l then some (rest.drop 2)
    else advance_to_section_fuel fuel sec rest

/-- Total summary of `advance_to_section`: scan for the first line containing
the marker and drop the two lines after it.  `none` records that the source
loop never terminates: once the reader is at end of file, `readline()`
returns `''` forever and a non-empty marker never matches
(see `advance_fuel_none_of_none`). -/
def advance_to_section (sec : String) : List String → Option (List String)
  | [] => if strContains sec "" then some [] else none
  | l :: ls => if strContains sec l then some (ls.drop 2) else advance_to_section sec ls

/-- `CalibrationParser.parse_files` body for a single open file; `none`
means the call never returns (the section scan diverges). -/
def ecs_parse_file (lines : List String) : Option (Except PyErr CalRecord) :=
  match advance_to_section "FILESET SETTINGS" lines with
  | none => none
  | some r1 =>
    match parse_settings [] r1 with
    | .error e => some (.error e)
    | .ok (fs, r2) =>
      match advance_to_section "SOURCECAL SETTINGS" r2 with
      | none => none
      | some r3 =>
        match parse_sourcecal [] r3 with
        | .error e => some (.error e)
        | .ok (sc, r4) =>
          match advance_to_section "LOCALCAL SETTINGS" r4 with
          | none => none
          | some r5 =>
            match parse_settings [] r5 with
            | .error e => some (.error e)
            | .ok (lc, _) => some (.ok ⟨fs, sc, lc⟩)

/-- `CalibrationParser.parse_files` over a batch of named files:
`output_data[basename] = record` per file; an exception propagates and
aborts the batch (no entry is stored for the failing file), and a diverging
file hangs the whole call (`none`). -/
def ecs_parse_files : List (String × List String) → Option (Assoc CalRecord × Option PyErr)
  | [] => some ([], none)
  | (fname, lines) :: rest =>
    match ecs_parse_file lines with
    | none => none
    | some (.error e) => some ([], some e)
    | some (.ok rec) =>
      match ecs_parse_files rest with
      | none => none
      | some (out, err) => some (dictInsert out fname rec, err)

/-! ## `ecs_parser.py` — `CalibrationParser.to_csv` -/

/-- `get_row_from_source(row_dict, source_dict, **kwargs)`:
`source_dict.update(kwargs)` mutates the settings dict in place (the first
component of the result is that mutated dict, which the caller's state keeps);
then every item of the updated source is written into a copy of `row_dict`. -/
def get_row_from_source (row_dict src : Assoc Val) (vs ch : String) : Assoc Val × Assoc Val :=
  let src1 := dictUpdate src [("value_source", Val.s vs), ("channel", Val.s ch)]
  (src1, copyInto row_dict src1)

/-- The `for cal, cal_settings in sourcecal_settings.items()` loop of
`CalibrationParser.to_csv`: three rows per source-cal entry, threading the
in-place mutation of the fileset and localcal dicts through iterations. -/
def ecs_rows_loop (row_dict : Assoc Val) : Assoc Val → Assoc Val → Assoc (Assoc Val) → List (Assoc Val)
  | _, _, [] => []
  | fs, lc, (cal, cs) :: rest =>
    let rF := get_row_from_source row_dict fs "FILESET" cal
    let rS := get_row_from_source row_dict cs "SOURCECAL" cal
    let rL := get_row_from_source row_dict lc "LOCALSET" cal
    rF.2 :: rS.2 :: rL.2 :: ecs_rows_loop row_dict rF.1 rL.1 rest

/-- Insert a column name if it is not present yet (order of first sight). -/
def insertKey (ks : List String) (k : String) : List String :=
  if k ∈ ks then ks else ks ++ [k]

/-- The column index `pandas.DataFrame.append` accumulates while rows with
possibly different indices are appended: the union of the rows' keys. -/
def colUnion {α : Type} (rows : List (Assoc α)) : List String :=
  rows.foldl (fun cols r => (keysOf r).foldl insertKey cols) []

/-- One `DataFrame` row after alignment: every column of the frame, missing
entries filled with `NaN`. -/
def alignRow (cols : List String) (r : Assoc Val) : Assoc Val :=
  cols.map (fun c => (c, (alookup r c).getD Val.nan))

/-- `CalibrationParser.to_csv` for one parsed record: columns are seeded via
`dict.fromkeys` from the id keys, the fileset keys, the keys of the *first*
source-cal entry and the localcal keys; rows are built by `ecs_rows_loop` and
the resulting frame is rectangular by `DataFrame` alignment.  An empty
source-cal dict raises `IndexError` (`list(...)[0]`). -/
def ecs_to_csv_rows (fileset : Assoc Val) (scal : Assoc (Assoc Val)) (lc : Assoc Val) :
    Except PyErr (List String × List (Assoc Val)) :=
  match scal with
  | [] => .error .indexError
  | c0 :: _ =>
    let row_dict := fromKeysNan (["value_source", "channel"] ++ keysOf fileset ++ keysOf c0.2 ++ keysOf lc)
    let rows := ecs_rows_loop row_dict fileset lc scal
    let cols := colUnion rows
    .ok (cols, rows.map (alignRow cols))

/-! ## `evr_parser.py` — `Region2DParser` -/

/-- One parsed 2D region (`regions[rid]` in `Region2DParser._parse`). -/
structure RegionRec where
  metadata : Assoc String
  notes : List String
  detection_settings : List String
  points : List (String × String)
  deriving Repr, DecidableEq

/-- Parsed EVR file: file metadata plus the region-id-keyed mapping. -/
structure EvrData where
  metadata : Assoc String
  regions : Assoc RegionRec
  deriving Repr, DecidableEq

/-- `read_line(fid, True)` in `Region2DParser._parse`: `rstrip('\n')` then
`split(' ')`; the terminator is already absent from the model, so this is a
plain split (trailing blanks are preserved as empty tokens). -/
def evrSplit (line : String) : List String :=
  pySplit line

/-- `_region_metadata_to_dict(line)`: positional decode of the fixed-arity
metadata line; any missing index raises `IndexError`.  Date/time pairs are
joined as `D{date}T{time}`. -/
def region_metadata_to_dict (line : List String) : Except PyErr (Assoc String) := do
  let sv ← pyIx line 0
  let pc ← pyIx line 1
  let sel ← pyIx line 3
  let ct ← pyIx line 4
  let dm ← pyIx line 5
  let brc ← pyIx line 6
  let d1 ← pyIx line 7
  let t1 ← pyIx line 8
  let ty1 ← pyIx line 10
  let d2 ← pyIx line 11
  let t2 ← pyIx line 12
  let by2 ← pyIx line 14
  pure [("structure_version", sv), ("point_count", pc), ("selected", sel),
        ("creation_type", ct), ("dummy", dm), ("bounding_rectangle_calculated", brc),
        ("bounding_rectangle_left_x", "D" ++ d1 ++ "T" ++ t1),
        ("bounding_rectangle_top_y", ty1),
        ("bounding_rectangle_right_x", "D" ++ d2 ++ "T" ++ t2),
        ("bounding_rectangle_bottom_y", by2)]

/-- `_points_to_dict(line)`: tokens in runs of three `(date, time, y)` become
the ordered points `(f'D{date}T{time}', y)`; a run cut short raises
`IndexError` (`line[idx + 1]` / `line[idx + 2]`). -/
def points_to_dict : List String → Except PyErr (List (String × String))
  | [] => .ok []
  | [_] => .error .indexError
  | [_, _] => .error .indexError
  | d :: t :: y :: rest => do
    let ps ← points_to_dict rest
    pure (("D" ++ d ++ "T" ++ t, y) :: ps)

/-- `list.pop()`: remove and return the last element; `IndexError` on `[]`. -/
def pyPop {α : Type} (l : List α) : Except PyErr (α × List α) :=
  match l.reverse with
  | [] => .error .indexError
  | x :: rest => .ok (x, rest.reverse)

/-- Lines 98–102 of `evr_parser.py`: tokenize the points line, `pop()` the
trailing artifact of the line format, `pop()` the region type, then group the
remaining tokens into points. -/
def processPointsLine (toks : List String) : Except PyErr (String × List (String × String)) := do
  let p1 ← pyPop toks
  let p2 ← pyPop p1.2
  let pts ← points_to_dict p2.2
  pure (p2.1, pts)

/-- `[read_line(fid) for l in range(n)]`: `n` reads; at end of file each read
yields `''` (no exception). -/
def readN : Nat → List String → List String × List String
  | 0, lines => ([], lines)
  | n + 1, lines =>
    let (l, rest) := pyReadline lines
    let (ls, rest2) := readN n rest
    (l :: ls, rest2)

/-- `int(line)` as the region parser uses it for count lines: a
non-numeric string raises `ValueError`. -/
def pyIntE (s : String) : Except PyErr Int :=
  match pyInt s with
  | some n => .ok n
  | none => .error .valueError

/-- The body of one iteration of the region loop in `Region2DParser._parse`
(steps: blank separator, metadata line, notes count and lines, detection
count and lines, classification, points line, name). -/
def parseOneRegion (lines : List String) : Except PyErr (String × RegionRec × List String) := do
  let l1 := (pyReadline lines).2
  let mline := (pyReadline l1).1
  let l2 := (pyReadline l1).2
  let toks := evrSplit mline
  let rid ← pyIx toks 2
  let md ← region_metadata_to_dict toks
  let noteCntLine := (pyReadline l2).1
  let l3 := (pyReadline l2).2
  let nNotes ← pyIntE noteCntLine
  let notes := (readN nNotes.toNat l3).1
  let l4 := (readN nNotes.toNat l3).2
  let detCntLine := (pyReadline l4).1
  let l5 := (pyReadline l4).2
  let nDets ← pyIntE detCntLine
  let dets := (readN nDets.toNat l5).1
  let l6 := (readN nDets.toNat l5).2
  let classif := (pyReadline l6).1
  let l7 := (pyReadline l6).2
  let ptsLine := (pyReadline l7).1
  let l8 := (pyReadline l7).2
  let tp ← processPointsLine (evrSplit ptsLine)
  let nameLine := (pyReadline l8).1
  let l9 := (pyReadline l8).2
  let md1 := md ++ [("region_classification", classif), ("type", tp.1), ("name", nameLine)]
  pure (rid, ⟨md1, notes, dets, tp.2⟩, l9)

/-- The `for r in range(n_regions)` loop of `Region2DParser._parse`; an
exception in any block aborts the whole parse. -/
def parseRegions (acc : Assoc RegionRec) : Nat → List String → Except PyErr (Assoc RegionRec × List String)
  | 0, lines => .ok (acc, lines)
  | n + 1, lines =>
    match parseOneRegion lines with
    | .error e => .error e
    | .ok (rid, reg, rest) => parseRegions (dictInsert acc rid reg) n rest

/-- `Region2DParser._parse`: 3-token header line (a mismatched token count
fails the tuple unpacking with `ValueError`), integer region count, then the
region loop. -/
def evr_parse (lines : List String) : Except PyErr EvrData :=
  let l1 := (pyReadline lines).1
  let r1 := (pyReadline lines).2
  match evrSplit l1 with
  | [ft, ffn, ev] =>
    let l2 := (pyReadline r1).1
    let r2 := (pyReadline r1).2
    match pyInt l2 with
    | none => .error .valueError
    | some n =>
      match parseRegions [] n.toNat r2 with
      | .error e => .error e
      | .ok (regs, _) =>
        .ok ⟨[("filetype", ft), ("file_format_number", ffn), ("echoview_version", ev)], regs⟩
  | _ => .error .valueError

/-- `Region2DParser.parse_files` over a batch of named files: one record per
file; an exception propagates out of the loop, so neither the failing file
nor any later file gets an entry. -/
def evr_parse_files : List (String × List String) → Assoc EvrData × Option PyErr
  | [] => ([], none)
  | (fname, lines) :: rest =>
    match evr_parse lines with
    | .error e => ([], some e)
    | .ok d =>
      match evr_parse_files rest with
      | (out, err) => (dictInsert out fname d, err)

/-- Ghost observer for the region loop: the region identifiers of the
successive blocks, in file order, as long as blocks keep parsing. -/
def blockRids : Nat → List String → List String
  | 0, _ => []
  | n + 1, lines =>
    match parseOneRegion lines with
    | .error _ => []
    | .ok (rid, _, rest) => rid :: blockRids n rest

/-- Insertion-ordered deduplication (the key set a sequence of Python dict
writes produces). -/
def dedupKeys (ks : List String) : List String :=
  ks.foldl insertKey []

/-! ## `evr_parser.py` — `Region2DParser.to_csv` and `get_points_from_region` -/

/-- One CSV cell before serialization: the Python values that end up in a
row `Series` (strings, the integer point index, or a whole list embedded as
one value). -/
inductive Cell where
  | s (v : String)
  | i (v : Nat)
  | l (v : List String)
  deriving Repr, DecidableEq

/-- A `DataFrame` row of `Region2DParser.to_csv`. -/
abbrev Row : Type := Assoc Cell

/-- `pd.concat([region_id, point, metadata, region_metadata, region_notes,
detection_settings])` for one point of one region. -/
def rowOf (fileMd : Assoc String) (rid : String) (reg : RegionRec) (p : Nat) (xy : String × String) : Row :=
  [("region_id", Cell.s rid), ("point_idx", Cell.i p), ("x", Cell.s xy.1), ("y", Cell.s xy.2)]
    ++ fileMd.map (fun kv => (kv.1, Cell.s kv.2))
    ++ reg.metadata.map (fun kv => (kv.1, Cell.s kv.2))
    ++ [("notes", Cell.l reg.notes), ("detection_settings", Cell.l reg.detection_settings)]

/-- Reindex a row by the given column list (`df[row.keys()]`), missing
entries as empty cells. -/
def reorderRow (cols : List String) (r : Row) : Row :=
  cols.map (fun c => (c, (alookup r c).getD (Cell.s "")))

/-- State of the double loop in `Region2DParser.to_csv`: the accumulated
`df` rows and the current value of the loop variable `row` (unassigned until
the first point is reached). -/
def evrCsvLoop (fileMd : Assoc String) (st : List Row × Option Row) :
    Assoc RegionRec → List Row × Option Row
  | [] => st
  | (rid, reg) :: rest =>
    let st1 := reg.points.enum.foldl
      (fun s pi =>
        let row := rowOf fileMd rid reg pi.1 pi.2
        (s.1 ++ [row], some row)) st
    evrCsvLoop fileMd st1 rest

/-- `Region2DParser.to_csv` row production for one parsed file: build one row
per point, then reorder the frame's columns by `row.keys()` — the `row` local
of the last executed loop iteration.  If no point was ever reached, `row` was
never assigned and the reference raises `NameError`. -/
def evr_to_csv_rows (d : EvrData) : Except PyErr (List Row) :=
  match evrCsvLoop d.metadata ([], none) d.regions with
  | (_, none) => .error .nameError
  | (rows, some last) => .ok (rows.map (reorderRow (keysOf last)))

/-- The points of one region as the JSON read path of
`get_points_from_region` returns them: `data['regions'][str(region)]
['points'].values()` as `(x, y)` tuples — the very strings stored at parse
time, values in index order. -/
def getPointsJson (d : EvrData) (rid : String) : Option (List (String × String)) :=
  (alookup d.regions rid).map RegionRec.points

/-- The same, with each component materialised as the Python value the JSON
branch yields: both coordinates are strings. -/
def getPointsJsonPd (d : EvrData) (rid : String) : Option (List (PdVal × PdVal)) :=
  (getPointsJson d rid).map (fun ps => ps.map (fun p => (PdVal.s p.1, PdVal.s p.2)))

/-- Decimal digits of a natural number (`fuel` bounds the recursion depth;
`n + 1` always suffices). -/
def natDigits : Nat → Nat → List Char
  | 0, _ => []
  | f + 1, n =>
    if n < 10 then [Char.ofNat (48 + n)]
    else natDigits f (n / 10) ++ [Char.ofNat (48 + n % 10)]

/-- A natural number as the decimal string the CSV writer prints. -/
def natToStr (n : Nat) : String :=
  String.mk (natDigits (n + 1) n)

/-- A cell as it is written to the CSV file. -/
def cellToCsv : Cell → String
  | .s v => v
  | .i v => natToStr v
  | .l vs => "[" ++ String.intercalate ", " (vs.map (fun v => "\x27" ++ v ++ "\x27")) ++ "]"

/-- The serialized cells of one column. -/
def colCells (rows : List Row) (c : String) : List String :=
  rows.map (fun r => cellToCsv ((alookup r c).getD (Cell.s "")))

/-- `pandas.read_csv` type inference: a column becomes numeric only if every
cell of it parses as a number. -/
def colNumeric (rows : List Row) (c : String) : Bool :=
  (colCells rows c).all (fun s => (parseRat s).isSome)

/-- A cell value as `read_csv` materialises it, given the inference outcome
of its column over the whole frame. -/
def readCellVal (rows : List Row) (c : String) (r : Row) : PdVal :=
  let s := cellToCsv ((alookup r c).getD (Cell.s ""))
  if colNumeric rows c then PdVal.n ((parseRat s).getD 0) else PdVal.s s

/-- The CSV read path of `get_points_from_region`: re-read the produced
rows, select `data['region_id'] == int(region)` and zip the `x` and `y`
columns. -/
def getPointsCsv (rows : List Row) (q : Int) : List (PdVal × PdVal) :=
  let sel := rows.filter (fun r => readCellVal rows "region_id" r = PdVal.n (q : Rat))
  sel.map (fun r => (readCellVal rows "x" r, readCellVal rows "y" r))

/-! ## `ev_parser.py` — save-directory handling -/

/-- `EvParserBase._validate_path(save_dir)`: `None` falls back to the first
input file's directory; an explicit directory must exist
(`os.path.isdir`), else `ValueError`.  The directory is never created. -/
def validate_path (dirExists : String → Bool) (inputDir : String) : Option String → Except PyErr String
  | none => .ok inputDir
  | some d => if dirExists d then .ok d else .error .valueError

/-- The directory `to_json` actually writes into: the source reads
`save_dir = self._validate_path()` — the method's `save_dir` parameter is
never passed on, so the explicit argument is dropped on the floor. -/
def to_json_save_dir (dirExists : String → Bool) (inputDir : String)
    (_save_dir : Option String) : Except PyErr String :=
  validate_path dirExists inputDir none

/-- The directory `to_csv` actually writes into (`ecs_parser.to_csv` line 99
and `evr_parser.to_csv` line 142 do the same `self._validate_path()` call
with no argument). -/
def to_csv_save_dir (dirExists : String → Bool) (inputDir : String)
    (_save_dir : Option String) : Except PyErr String :=
  validate_path dirExists inputDir none

/-! ## Concrete input files used as witnesses and counterexamples -/

/-- A calibration file in the real ECS layout: each section title sits in a
heading box (top rule, title line, bottom rule, blank) and carries the §8
example's contents. -/
def ecsExampleLines : List String :=
  ["# FILESET SETTINGS #",
   "#==================#",
   "",
   "freq = 38",
   "",
   "#==================#",
   "# SOURCECAL SETTINGS #",
   "#==================#",
   "",
   "SourceCal 38",
   "power = 1000",
   "",
   "#==================#",
   "# LOCALCAL SETTINGS #",
   "#==================#",
   "",
   "gain = 10"]

/-- The §8 scenario file exactly as the spec lists it: title lines with no
heading box around them. -/
def ecsLiteralLines : List String :=
  ["FILESET SETTINGS",
   "freq = 38",
   "",
   "SOURCECAL SETTINGS",
   "SourceCal 38",
   "power = 1000",
   "",
   "LOCALCAL SETTINGS",
   "gain = 10"]

/-- The record the §8 scenario promises. -/
def ecsExampleRecord : CalRecord :=
  ⟨[("freq", Val.s "38")],
   [("SourceCal_38", [("power", Val.s "1000")])],
   [("gain", Val.s "10")]⟩

/-- `ecsExampleLines` with the whole `LOCALCAL SETTINGS` section missing. -/
def ecsMissingLocalLines : List String :=
  ecsExampleLines.take 12

/-- A region metadata line with 15 positional tokens and region id `1`. -/
def evrMdLine : String :=
  "13 1 1 0 2 -1 1 20210101 0930000000 0 -40.0 20210101 0940000000 0 -60.0"

/-- A well-formed one-region EVR file with a single point. -/
def evrFileLines : List String :=
  ["EVRG 7 13.0", "1", "", evrMdLine, "0", "0", "Unclassified",
   "20210101 0930000000 -10.5 1 ", "RegionA"]

/-- An EVR file declaring two regions that carry the same region id `1`. -/
def evrDupRidLines : List String :=
  ["EVRG 7 13.0", "2", "", evrMdLine, "0", "0", "Unclassified",
   "20210101 0930000000 -10.5 1 ", "RegionA",
   "", evrMdLine, "0", "0", "Unclassified",
   "20210102 0930000000 -11.5 1 ", "RegionB"]

/-- An EVR file whose single region has an empty point list (the points line
holds only the type token and the trailing blank). -/
def evrNoPointLines : List String :=
  ["EVRG 7 13.0", "1", "", evrMdLine, "0", "0", "Unclassified", "1 ", "RegionA"]

/-- The decoded metadata dict of `evrMdLine`. -/
def evrMdDict : Assoc String :=
  [("structure_version", "13"), ("point_count", "1"), ("selected", "0"),
   ("creation_type", "2"), ("dummy", "-1"), ("bounding_rectangle_calculated", "1"),
   ("bounding_rectangle_left_x", "D20210101T0930000000"),
   ("bounding_rectangle_top_y", "-40.0"),
   ("bounding_rectangle_right_x", "D20210101T0940000000"),
   ("bounding_rectangle_bottom_y", "-60.0")]

/-- The region record `evr_parse` produces for the single region of
`evrFileLines`. -/
def evrFileRegion : RegionRec :=
  ⟨evrMdDict ++ [("region_classification", "Unclassified"), ("type", "1"), ("name", "RegionA")],
   [], [], [("D20210101T0930000000", "-10.5")]⟩

/-- The record `evr_parse` produces for `evrFileLines`. -/
def evrFileParsedData : EvrData :=
  ⟨[("filetype", "EVRG"), ("file_format_number", "7"), ("echoview_version", "13.0")],
   [("1", evrFileRegion)]⟩

/-- The number of entries of a parse result's region mapping. -/
def regionsCount : Except PyErr EvrData → Option Nat
  | .ok d => some d.regions.length
  | .error _ => none

/-- The metadata keys every parsed region record carries, in insertion
order. -/
def mdKeys : List String :=
  ["structure_version", "point_count", "selected", "creation_type", "dummy",
   "bounding_rectangle_calculated", "bounding_rectangle_left_x", "bounding_rectangle_top_y",
   "bounding_rectangle_right_x", "bounding_rectangle_bottom_y",
   "region_classification", "type", "name"]

/-- The rows one region contributes: one per point, in point order. -/
def regionRows (fileMd : Assoc String) (rid : String) (reg : RegionRec) : List Row :=
  reg.points.enum.map (fun pi => rowOf fileMd rid reg pi.1 pi.2)

/-- Total number of parsed points over all regions of a file. -/
def totalPoints (d : EvrData) : Nat :=
  (d.regions.map (fun rr => rr.2.points.length)).sum

/-- The column set every row of `Region2DParser.to_csv` carries, for a
successfully parsed file. -/
def rowKeys : List String :=
  ["region_id", "point_idx", "x", "y", "filetype", "file_format_number", "echoview_version"] ++
    mdKeys ++ ["notes", "detection_settings"]

/-- Concrete calibration record for the C5 witness: the second source-cal
entry carries a key (`extra`) absent from the first. -/
def c5Fileset : Assoc Val := [("freq", Val.s "38")]

def c5Scal : Assoc (Assoc Val) :=
  [("SourceCal_T1", [("power", Val.s "1000")]),
   ("SourceCal_T2", [("power", Val.s "2000"), ("extra", Val.s "9")])]

def c5Local : Assoc Val := [("gain", Val.s "10")]

/-- The (columns, aligned rows) the flattener produces for the record above. -/
def c5Out : List String × List (Assoc Val) :=
  match ecs_to_csv_rows c5Fileset c5Scal c5Local with
  | .ok out => out
  | .error _ => ([], [])

/-! ## General lemmas about the embedded primitives -/

theorem keysOf_dictInsert {α : Type} (d : Assoc α) (k : String) (v : α) :
    keysOf (dictInsert d k v) = insertKey (keysOf d) k := by
  unfold dictInsert insertKey
  by_cases h : k ∈ keysOf d
  · rw [if_pos h, if_pos h]
    simp only [keysOf, List.map_map]
    exact List.map_congr_left (fun x _ => by
      by_cases hx : x.1 = k
      · simp [Function.comp, hx]
      · simp [Function.comp, hx])
  · rw [if_neg h, if_neg h]
    simp [keysOf]

theorem readN_snd_of_le (n : Nat) : ∀ ls : List String, ls.length ≤ n → (readN n ls).2 = [] := by
  induction n with
  | zero =>
    intro ls h
    have : ls = [] := List.eq_nil_of_length_eq_zero (Nat.le_zero.mp h)
    simp [this, readN]
  | succ n ih =>
    intro ls h
    cases ls with
    | nil => simp [readN, pyReadline, ih [] (by simp)]
    | cons l ls =>
      simp only [readN, pyReadline]
      exact ih ls (by simpa using h)

theorem readN_exact (notes : List String) : ∀ rest : List String,
    readN notes.length (notes ++ rest) = (notes, rest) := by
  induction notes with
  | nil => intro rest; simp [readN]
  | cons l ls ih => intro rest; simp [readN, pyReadline, ih rest]

theorem pyPop_append (l : List String) (x : String) : pyPop (l ++ [x]) = .ok (x, l) := by
  simp [pyPop, List.reverse_append]

theorem parse_settings_rest_le (ls : List String) : ∀ (acc s : Assoc Val) (rest : List String),
    parse_settings acc ls = .ok (s, rest) → rest.length ≤ ls.length := by
  induction ls with
  | nil =>
    intro acc s rest h
    simp only [parse_settings] at h
    cases h
    exact Nat.le_refl _
  | cons l ls ih =>
    intro acc s rest h
    simp only [parse_settings] at h
    split at h
    · cases h
      exact Nat.le_succ _
    · split at h
      · cases h
      · exact Nat.le_trans (ih _ _ _ h) (Nat.le_succ _)

theorem parse_sourcecal_fuel_eq (f1 : Nat) : ∀ (f2 : Nat) (acc : Assoc (Assoc Val)) (lines : List String),
    lines.length ≤ f1 → lines.length ≤ f2 →
    parse_sourcecal_fuel f1 acc lines = parse_sourcecal_fuel f2 acc lines := by
  induction f1 with
  | zero =>
    intro f2 acc lines h1 _h2
    have hnil : lines = [] := List.eq_nil_of_length_eq_zero (Nat.le_zero.mp h1)
    subst hnil
    cases f2 <;> rfl
  | succ f1 ih =>
    intro f2 acc lines h1 h2
    cases lines with
    | nil => cases f2 <;> rfl
    | cons l ls =>
      cases f2 with
      | zero => exact absurd h2 (by simp)
      | succ f2 =>
        have hls1 : ls.length ≤ f1 := by simp only [List.length_cons] at h1; omega
        have hls2 : ls.length ≤ f2 := by simp only [List.length_cons] at h2; omega
        simp only [parse_sourcecal_fuel]
        by_cases hh : (stripSplit l).headD "" = "SourceCal"
        · rw [if_pos hh, if_pos hh]
          cases hps : parse_settings [] ls with
          | error e => rfl
          | ok sr =>
            have hr := parse_settings_rest_le ls [] sr.1 sr.2 hps
            exact ih f2 _ sr.2 (Nat.le_trans hr hls1) (Nat.le_trans hr hls2)
        · rw [if_neg hh, if_neg hh]

/-- Any fuel of at least `lines.length` computes `parse_sourcecal`. -/
theorem parse_sourcecal_fuel_adequate (fuel : Nat) (acc : Assoc (Assoc Val)) (lines : List String)
    (h : lines.length ≤ fuel) :
    parse_sourcecal_fuel fuel acc lines = parse_sourcecal acc lines :=
  parse_sourcecal_fuel_eq fuel lines.length acc lines h (Nat.le_refl _)

/-- When the total summary reports no occurrence of the marker, the source
loop really runs forever: the fuelled transcription returns `none` at every
fuel. -/
theorem advance_fuel_none_of_none (sec : String) : ∀ (fuel : Nat) (lines : List String),
    advance_to_section sec lines = none →
    advance_to_section_fuel fuel sec lines = none := by
  intro fuel
  induction fuel with
  | zero => intro lines _; rfl
  | succ f ih =>
    intro lines h
    cases lines with
    | nil =>
      unfold advance_to_section at h
      split at h
      · exact absurd h (by simp)
      · simp only [advance_to_section_fuel, pyReadline]
        rw [if_neg (by assumption)]
        exact ih [] (by unfold advance_to_section; rw [if_neg (by assumption)])
    | cons l ls =>
      unfold advance_to_section at h
      split at h
      · exact absurd h (by simp)
      · simp only [advance_to_section_fuel, pyReadline]
        rw [if_neg (by assumption)]
        exact ih ls h

/-! ## Claim theorems -/

/-- C1: a calibration file in which a required section marker (here
`LOCALCAL SETTINGS`) never appears does NOT produce a `SectionNotFound`
failure: `parse_files` never returns at all.  The first conjunct evaluates
the parser on a concrete file whose `LOCALCAL SETTINGS` section is missing
(`none` = the section scan diverges); the second proves that the `none`
summary really is divergence of the source's `while` loop: at end of file
`readline()` yields `''` forever and the loop never exits.  The code
therefore neither raises nor terminates — the claim's error behaviour is
absent from the code (code bug: an unbounded scan instead of a hard parse
failure). -/
theorem C1_missing_section_diverges :
    ecs_parse_file ecsMissingLocalLines = none ∧
    (∀ (sec : String) (lines : List String), advance_to_section sec lines = none →
      ∀ fuel : Nat, advance_to_section_fuel fuel sec lines = none) := by
  constructor
  · decide
  · intro sec lines h fuel
    exact advance_fuel_none_of_none sec fuel lines h

/-- Witness for C1: the second conjunct applied at the concrete point the
failing file reaches — scanning for `LOCALCAL SETTINGS` at end of file. -/
theorem C1_missing_section_diverges_witness :
    advance_to_section_fuel 5 "LOCALCAL SETTINGS" [] = none :=
  C1_missing_section_diverges.2 "LOCALCAL SETTINGS" [] (by decide) 5

/-- C3: FALSE of the code — `to_json`/`to_csv` call `self._validate_path()`
without forwarding their `save_dir` parameter, so an explicitly supplied
directory is ignored: the output goes to the first input file's directory
and a non-existent explicit directory raises nothing.  Had the argument been
forwarded, `_validate_path` itself (third conjunct) would reject it.  Here
no directory exists at all (`fun _ => false`) and the explicit request
`some "missing"` still yields the input directory with no error. -/
theorem C3_save_dir_ignored :
    to_json_save_dir (fun _ => false) "inputdir" (some "missing") = .ok "inputdir" ∧
    to_csv_save_dir (fun _ => false) "inputdir" (some "missing") = .ok "inputdir" ∧
    validate_path (fun _ => false) "inputdir" (some "missing") = .error .valueError := by
  exact ⟨rfl, rfl, rfl⟩

theorem exceptBind_ok {ε α β : Type} (a : α) (f : α → Except ε β) :
    (Except.ok a >>= f : Except ε β) = f a := rfl

theorem exceptBind_err {ε α β : Type} (e : ε) (f : α → Except ε β) :
    (Except.error e >>= f : Except ε β) = .error e := rfl

theorem exceptPure_eq {ε α : Type} (a : α) : (pure a : Except ε α) = .ok a := rfl

theorem points_to_dict_groups (groups : List (String × String × String)) :
    points_to_dict (groups.flatMap (fun g => [g.1, g.2.1, g.2.2])) =
      .ok (groups.map (fun g => ("D" ++ g.1 ++ "T" ++ g.2.1, g.2.2))) := by
  induction groups with
  | nil => rfl
  | cons g gs ih =>
    simp only [List.flatMap_cons, List.cons_append, List.map_cons]
    show points_to_dict (g.1 :: g.2.1 :: g.2.2 :: gs.flatMap (fun g => [g.1, g.2.1, g.2.2])) = _
    unfold points_to_dict
    rw [ih, exceptBind_ok, exceptPure_eq]

/-- C6: the points-line handling of `Region2DParser._parse` — the final
token of the tokenized line is discarded, the new final token becomes the
region `type`, and the remaining tokens are consumed in consecutive runs of
three `(date, time, y)`, yielding the ordered points
`(f'D{date}T{time}', y)` in run order. -/
theorem C6_points_line (groups : List (String × String × String)) (ty junk : String) :
    processPointsLine ((groups.flatMap (fun g => [g.1, g.2.1, g.2.2])) ++ [ty, junk]) =
      .ok (ty, groups.map (fun g => ("D" ++ g.1 ++ "T" ++ g.2.1, g.2.2))) := by
  have h : (groups.flatMap (fun g => [g.1, g.2.1, g.2.2])) ++ [ty, junk] =
      ((groups.flatMap (fun g => [g.1, g.2.1, g.2.2]) ++ [ty]) ++ [junk]) := by
    rw [List.append_assoc]
    rfl
  rw [h]
  unfold processPointsLine
  rw [pyPop_append, exceptBind_ok]
  show (pyPop (groups.flatMap (fun g => [g.1, g.2.1, g.2.2]) ++ [ty]) >>= _) = _
  rw [pyPop_append, exceptBind_ok]
  show (points_to_dict (groups.flatMap (fun g => [g.1, g.2.1, g.2.2])) >>= _) = _
  rw [points_to_dict_groups, exceptBind_ok, exceptPure_eq]

theorem settingsField_plain (f m v : String) (rest : List String) (hne : f ≠ "#") :
    settingsField (f :: m :: v :: rest) = .ok (f, if v = "#" then Val.nan else Val.s v) := by
  unfold settingsField
  simp only [List.headD_cons]
  rw [if_pos hne]
  simp [pyIx, exceptBind_ok, exceptPure_eq]

theorem settingsField_commented (f m v : String) (rest : List String) :
    settingsField ("#" :: f :: m :: v :: rest) = .ok (f, if v = "#" then Val.nan else Val.s v) := by
  unfold settingsField
  simp only [List.headD_cons]
  rw [if_neg (by simp)]
  simp [pyIx, exceptBind_ok, exceptPure_eq]

/-- C7: the settings-line grammar of `CalibrationParser._parse_settings`.
(1) an uncommented line stores the token at index 0 as the field and the
token at index 2 as the value, never inspecting the token between them (the
separator position `m` is arbitrary); (2) a leading `#` shifts both
positions one to the right; in both cases a value token that is literally
`#` is stored as the absent marker `NaN`; (3) `NaN` is distinct from every
real string value; (4) the block terminates (consuming the sentinel line)
exactly when a line tokenizes to a single element. -/
theorem C7_settings_line :
    (∀ (acc : Assoc Val) (l : String) (ls : List String) (f m v : String) (rest : List String),
        stripSplit l = f :: m :: v :: rest → f ≠ "#" →
        parse_settings acc (l :: ls) =
          parse_settings (dictInsert acc f (if v = "#" then Val.nan else Val.s v)) ls) ∧
    (∀ (acc : Assoc Val) (l : String) (ls : List String) (f m v : String) (rest : List String),
        stripSplit l = "#" :: f :: m :: v :: rest →
        parse_settings acc (l :: ls) =
          parse_settings (dictInsert acc f (if v = "#" then Val.nan else Val.s v)) ls) ∧
    (∀ v : String, Val.nan ≠ Val.s v) ∧
    (∀ (acc : Assoc Val) (l : String) (ls : List String),
        (stripSplit l).length = 1 → parse_settings acc (l :: ls) = .ok (acc, ls)) := by
  refine ⟨?_, ?_, fun v h => Val.noConfusion h, ?_⟩
  · intro acc l ls f m v rest h hne
    simp only [parse_settings]
    rw [h, if_neg (by simp), settingsField_plain f m v rest hne]
  · intro acc l ls f m v rest h
    simp only [parse_settings]
    rw [h, if_neg (by simp), settingsField_commented f m v rest]
  · intro acc l ls h
    simp only [parse_settings]
    rw [if_pos h]

/-- Witness for C7: the three line shapes on concrete lines — `freq = 38`
(field with value), `# gain = #` (commented field, absent value, still
recorded), and a blank line ending the block. -/
theorem C7_settings_line_witness :
    parse_settings [] ["freq = 38", ""] = .ok ([("freq", Val.s "38")], []) ∧
    parse_settings [] ["# gain = #", ""] = .ok ([("gain", Val.nan)], []) ∧
    parse_settings [] ["", "next"] = .ok ([], ["next"]) := by
  refine ⟨?_, ?_, ?_⟩
  · rw [C7_settings_line.1 [] "freq = 38" [""] "freq" "=" "38" [] (by decide) (by decide)]
    decide
  · rw [C7_settings_line.2.1 [] "# gain = #" [""] "gain" "=" "#" [] (by decide)]
    decide
  · exact C7_settings_line.2.2.2 [] "" ["next"] (by decide)

/-- C8: the source-cal section loop of `CalibrationParser._parse_sourcecal`.
(1) while a line's first token is `SourceCal`, the settings block after it is
parsed and stored under the line's tokens joined with `_`; (2) the first line
whose first token differs stops the loop with that line consumed.  (3) The §8
example contents produce exactly the promised record — on a file in the real
ECS layout, where each section title sits in a heading box (the parser
unconditionally discards the two lines after a title, and the box's top rule
is what the source-cal loop consumes before `LOCALCAL SETTINGS`). -/
theorem C8_sourcecal_loop :
    (∀ (acc : Assoc (Assoc Val)) (l : String) (ls : List String),
        (stripSplit l).headD "" = "SourceCal" →
        parse_sourcecal acc (l :: ls) =
          match parse_settings [] ls with
          | .error e => .error e
          | .ok sr => parse_sourcecal (dictInsert acc (String.intercalate "_" (stripSplit l)) sr.1) sr.2) ∧
    (∀ (acc : Assoc (Assoc Val)) (l : String) (ls : List String),
        (stripSplit l).headD "" ≠ "SourceCal" →
        parse_sourcecal acc (l :: ls) = .ok (acc, ls)) ∧
    ecs_parse_file ecsExampleLines = some (.ok ecsExampleRecord) := by
  refine ⟨?_, ?_, by decide⟩
  · intro acc l ls hh
    show parse_sourcecal_fuel (ls.length + 1) acc (l :: ls) = _
    simp only [parse_sourcecal_fuel]
    rw [if_pos hh]
    cases hps : parse_settings [] ls with
    | error e => rfl
    | ok sr =>
      have hr := parse_settings_rest_le ls [] sr.1 sr.2 hps
      exact parse_sourcecal_fuel_eq ls.length sr.2.length _ sr.2 hr (Nat.le_refl _)
  · intro acc l ls hh
    show parse_sourcecal_fuel (ls.length + 1) acc (l :: ls) = _
    simp only [parse_sourcecal_fuel]
    rw [if_neg hh]

/-- Witness for C8: the loop equations applied to concrete lines — one
`SourceCal T1` block followed by a non-matching line (consumed), and a
directly non-matching line. -/
theorem C8_sourcecal_loop_witness :
    parse_sourcecal [] ["SourceCal T1", "power = 1000", "", "END"] =
      .ok ([("SourceCal_T1", [("power", Val.s "1000")])], []) ∧
    parse_sourcecal [] ["LOCALCAL", "x"] = .ok ([], ["x"]) := by
  constructor
  · rw [C8_sourcecal_loop.1 [] "SourceCal T1" ["power = 1000", "", "END"] (by decide)]
    decide
  · exact C8_sourcecal_loop.2.1 [] "LOCALCAL" ["x"] (by decide)

/-- C8 counterexample: the §8 example file exactly as the spec lists it (no
heading boxes) does NOT yield the promised record: the two lines after the
`FILESET SETTINGS` title (`freq = 38` and the blank) are unconditionally
discarded as the heading-box footer, and the parser then reads
`SOURCECAL SETTINGS` as a settings line and fails with `IndexError`
(`line[idx + 2]` on a two-token line). -/
theorem C8_literal_example_fails :
    ecs_parse_file ecsLiteralLines = some (.error PyErr.indexError) ∧
    ecs_parse_file ecsLiteralLines ≠ some (.ok ecsExampleRecord) := by
  exact ⟨by decide, by decide⟩

/-- C2: a declared count that exceeds the lines actually available makes the
whole parse fail (the spec's `TruncatedRegion` condition), and no record is
stored for the file.  (1) a declared region count with no region block left:
the metadata read at end of file yields `['']` and `line[2]` raises
`IndexError`; (2) a notes count larger than the remaining file: the reads
past end of file yield `''`, and the following detection-count `int('')`
raises `ValueError`; (3) a detection-settings count larger than the
remaining file: the points line read at end of file yields `['']` and the
second `pop()` raises `IndexError`; (4) a file whose parse raises stores no
record in `output_data`. -/
theorem C2_truncation_fails :
    (∀ (n : Nat) (acc : Assoc RegionRec), parseRegions acc (n + 1) [] = .error .indexError) ∧
    (∀ (b m cnt rid : String) (md : Assoc String) (rest : List String) (c : Int),
        pyIx (evrSplit m) 2 = .ok rid →
        region_metadata_to_dict (evrSplit m) = .ok md →
        pyInt cnt = some c → rest.length < c.toNat →
        parseOneRegion (b :: m :: cnt :: rest) = .error .valueError) ∧
    (∀ (b m ncnt dcnt rid : String) (md : Assoc String) (notes rest2 : List String) (cn cd : Int),
        pyIx (evrSplit m) 2 = .ok rid →
        region_metadata_to_dict (evrSplit m) = .ok md →
        pyInt ncnt = some cn → notes.length = cn.toNat →
        pyInt dcnt = some cd → rest2.length < cd.toNat →
        parseOneRegion (b :: m :: ncnt :: (notes ++ dcnt :: rest2)) = .error .indexError) ∧
    (∀ (fname : String) (lines : List String) (e : PyErr),
        evr_parse lines = .error e →
        evr_parse_files [(fname, lines)] = ([], some e)) := by
  refine ⟨fun n acc => rfl, ?_, ?_, ?_⟩
  · intro b m cnt rid md rest c hrid hmd hcnt hlt
    have hIE : pyIntE "" = .error PyErr.valueError := by decide
    simp only [parseOneRegion, pyReadline]
    rw [hrid, hmd]
    simp only [exceptBind_ok]
    rw [show pyIntE cnt = Except.ok c from by unfold pyIntE; rw [hcnt]]
    simp only [exceptBind_ok]
    rw [readN_snd_of_le c.toNat rest (Nat.le_of_lt hlt)]
    simp [hIE, exceptBind_ok, exceptBind_err, exceptPure_eq]
  · intro b m ncnt dcnt rid md notes rest2 cn cd hrid hmd hncnt hnlen hdcnt hlt2
    have hpp : processPointsLine (evrSplit "") = .error PyErr.indexError := by decide
    simp only [parseOneRegion, pyReadline]
    rw [hrid, hmd]
    simp only [exceptBind_ok]
    rw [show pyIntE ncnt = Except.ok cn from by unfold pyIntE; rw [hncnt]]
    simp only [exceptBind_ok]
    rw [show readN cn.toNat (notes ++ dcnt :: rest2) = (notes, dcnt :: rest2) by
      rw [← hnlen]; exact readN_exact notes (dcnt :: rest2)]
    simp only
    rw [show pyIntE dcnt = Except.ok cd from by unfold pyIntE; rw [hdcnt]]
    simp only [exceptBind_ok]
    rw [readN_snd_of_le cd.toNat rest2 (Nat.le_of_lt hlt2)]
    simp [hpp, exceptBind_ok, exceptBind_err, exceptPure_eq]
  · intro fname lines e h
    simp only [evr_parse_files]
    rw [h]

/-- Witness for C2: each truncation shape on a concrete file fragment — a
declared region with no lines left, a notes count of 5 with one line left,
a detection count of 3 with one line left, and a truncated single-file batch
storing no record. -/
theorem C2_truncation_fails_witness :
    parseRegions [] 1 [] = .error PyErr.indexError ∧
    parseOneRegion ["", evrMdLine, "5", "noteA"] = .error PyErr.valueError ∧
    parseOneRegion ["", evrMdLine, "1", "noteA", "3", "x"] = .error PyErr.indexError ∧
    evr_parse_files [("f", ["EVRG 7 13.0", "1"])] = ([], some PyErr.indexError) := by
  refine ⟨C2_truncation_fails.1 0 [], ?_, ?_, ?_⟩
  · exact C2_truncation_fails.2.1 "" evrMdLine "5" "1" evrMdDict ["noteA"] 5
      (by decide) (by decide) (by decide) (by decide)
  · exact C2_truncation_fails.2.2.1 "" evrMdLine "1" "3" "1" evrMdDict ["noteA"] ["x"] 1 3
      (by decide) (by decide) (by decide) (by decide) (by decide) (by decide)
  · exact C2_truncation_fails.2.2.2 "f" ["EVRG 7 13.0", "1"] PyErr.indexError (by decide)

theorem parseRegions_keys : ∀ (n : Nat) (acc : Assoc RegionRec) (lines : List String)
    (res : Assoc RegionRec) (rest : List String),
    parseRegions acc n lines = .ok (res, rest) →
    keysOf res = (blockRids n lines).foldl insertKey (keysOf acc) := by
  intro n
  induction n with
  | zero =>
    intro acc lines res rest h
    simp only [parseRegions] at h
    injection h with h1
    cases h1
    rfl
  | succ n ih =>
    intro acc lines res rest h
    simp only [parseRegions] at h
    cases hone : parseOneRegion lines with
    | error e => rw [hone] at h; cases h
    | ok rr =>
      obtain ⟨rid, reg, rest1⟩ := rr
      rw [hone] at h
      simp only [blockRids, hone, List.foldl_cons]
      rw [← keysOf_dictInsert]
      exact ih _ _ _ _ h

theorem blockRids_length : ∀ (n : Nat) (acc : Assoc RegionRec) (lines : List String)
    (res : Assoc RegionRec) (rest : List String),
    parseRegions acc n lines = .ok (res, rest) →
    (blockRids n lines).length = n := by
  intro n
  induction n with
  | zero => intro acc lines res rest _; rfl
  | succ n ih =>
    intro acc lines res rest h
    simp only [parseRegions] at h
    cases hone : parseOneRegion lines with
    | error e => rw [hone] at h; cases h
    | ok rr =>
      obtain ⟨rid, reg, rest1⟩ := rr
      rw [hone] at h
      simp only [blockRids, hone, List.length_cons]
      rw [ih _ _ _ _ h]

theorem foldl_insertKey_nodup : ∀ (ks init : List String), (init ++ ks).Nodup →
    ks.foldl insertKey init = init ++ ks := by
  intro ks
  induction ks with
  | nil => intro init _; simp
  | cons k ks ih =>
    intro init h
    have hk : k ∉ init := by
      intro hmem
      rcases List.nodup_append.mp h with ⟨_, _, hdisj⟩
      exact hdisj hmem (by simp)
    rw [List.foldl_cons,
        show insertKey init k = init ++ [k] from by unfold insertKey; rw [if_neg hk],
        ih (init ++ [k]) (by simpa using h)]
    simp

/-- C10 (amended): for a successfully parsed region file the number of
entries of the region mapping equals the number of DISTINCT region
identifiers among the parsed blocks (insertion-ordered deduplication), and
equals the declared header count exactly when the blocks' identifiers are
pairwise distinct.  Two blocks with the same identifier collapse into one
entry (`regions[rid]` writes into the same dict slot), so the claim's
"including when two region blocks carry the same region identifier" fails —
see the counterexample. -/
theorem C10_region_count (l1 l2 : String) (rest : List String) (n : Int) (d : EvrData)
    (hn : pyInt l2 = some n) (hp : evr_parse (l1 :: l2 :: rest) = .ok d) :
    d.regions.length = (dedupKeys (blockRids n.toNat rest)).length ∧
    ((blockRids n.toNat rest).Nodup → d.regions.length = n.toNat) := by
  unfold evr_parse at hp
  simp only [pyReadline] at hp
  split at hp
  · simp only [hn] at hp
    cases hpr : parseRegions [] n.toNat rest with
    | error e => rw [hpr] at hp; cases hp
    | ok rr =>
      obtain ⟨regs, rest2⟩ := rr
      rw [hpr] at hp
      injection hp with h1
      have hregs : d.regions = regs := by rw [← h1]
      have hkeys := parseRegions_keys n.toNat [] rest regs rest2 hpr
      have hlen : d.regions.length = (dedupKeys (blockRids n.toNat rest)).length := by
        rw [hregs]
        have : regs.length = (keysOf regs).length := by simp [keysOf]
        rw [this, hkeys]
        rfl
      refine ⟨hlen, fun hnd => ?_⟩
      rw [hlen]
      unfold dedupKeys
      rw [foldl_insertKey_nodup _ [] (by simpa using hnd)]
      simpa using blockRids_length n.toNat [] rest regs rest2 hpr
  · cases hp

/-- Witness for C10: the theorem applied to the concrete one-region file
`evrFileLines` (declared count 1, one distinct id). -/
theorem C10_region_count_witness :
    evrFileParsedData.regions.length =
      (dedupKeys (blockRids 1 ["", evrMdLine, "0", "0", "Unclassified",
        "20210101 0930000000 -10.5 1 ", "RegionA"])).length ∧
    ((blockRids 1 ["", evrMdLine, "0", "0", "Unclassified",
        "20210101 0930000000 -10.5 1 ", "RegionA"]).Nodup →
      evrFileParsedData.regions.length = 1) :=
  C10_region_count "EVRG 7 13.0" "1"
    ["", evrMdLine, "0", "0", "Unclassified", "20210101 0930000000 -10.5 1 ", "RegionA"]
    1 evrFileParsedData (by decide) (by decide)

/-- C10 counterexample: `evrDupRidLines` declares 2 regions (header line
`2`) and both blocks carry region id `1`; the parse succeeds but the region
mapping holds a single entry, not the declared 2. -/
theorem C10_duplicate_id_collapses :
    regionsCount (evr_parse evrDupRidLines) = some 1 ∧
    pyInt "2" = some 2 ∧ evrDupRidLines.get? 1 = some "2" := by
  exact ⟨by decide, by decide, by decide⟩

theorem exceptBind_eq_ok {ε α β : Type} {e : Except ε α} {f : α → Except ε β} {v : β}
    (h : (e >>= f) = .ok v) : ∃ a, e = .ok a ∧ f a = .ok v := by
  cases e with
  | error err => exact absurd h (by simp [exceptBind_err])
  | ok a => exact ⟨a, rfl, h⟩

theorem region_metadata_to_dict_keys (line : List String) (md : Assoc String)
    (h : region_metadata_to_dict line = .ok md) :
    keysOf md = ["structure_version", "point_count", "selected", "creation_type", "dummy",
      "bounding_rectangle_calculated", "bounding_rectangle_left_x", "bounding_rectangle_top_y",
      "bounding_rectangle_right_x", "bounding_rectangle_bottom_y"] := by
  unfold region_metadata_to_dict at h
  obtain ⟨sv, _, h⟩ := exceptBind_eq_ok h
  obtain ⟨pc, _, h⟩ := exceptBind_eq_ok h
  obtain ⟨sel, _, h⟩ := exceptBind_eq_ok h
  obtain ⟨ct, _, h⟩ := exceptBind_eq_ok h
  obtain ⟨dm, _, h⟩ := exceptBind_eq_ok h
  obtain ⟨brc, _, h⟩ := exceptBind_eq_ok h
  obtain ⟨d1, _, h⟩ := exceptBind_eq_ok h
  obtain ⟨t1, _, h⟩ := exceptBind_eq_ok h
  obtain ⟨ty1, _, h⟩ := exceptBind_eq_ok h
  obtain ⟨d2, _, h⟩ := exceptBind_eq_ok h
  obtain ⟨t2, _, h⟩ := exceptBind_eq_ok h
  obtain ⟨by2, _, h⟩ := exceptBind_eq_ok h
  rw [exceptPure_eq] at h
  injection h with h1
  rw [← h1]
  rfl

theorem points_to_dict_shape : ∀ (toks : List String) (pts : List (String × String)),
    points_to_dict toks = .ok pts → ∀ p ∈ pts, ∃ a b, p.1 = "D" ++ a ++ "T" ++ b := by
  intro toks
  induction toks using points_to_dict.induct with
  | case1 =>
    intro pts h p hp
    simp only [points_to_dict] at h
    injection h with h1
    rw [← h1] at hp
    cases hp
  | case2 x =>
    intro pts h
    simp only [points_to_dict] at h
    cases h
  | case3 x y =>
    intro pts h
    simp only [points_to_dict] at h
    cases h
  | case4 d t y rest ih =>
    intro pts h p hp
    simp only [points_to_dict] at h
    obtain ⟨ps, hps, h⟩ := exceptBind_eq_ok h
    rw [exceptPure_eq] at h
    injection h with h1
    rw [← h1] at hp
    cases hp with
    | head => exact ⟨d, t, rfl⟩
    | tail _ htail => exact ih ps hps p htail

theorem processPointsLine_shape (toks : List String) (tp : String × List (String × String))
    (h : processPointsLine toks = .ok tp) :
    ∀ p ∈ tp.2, ∃ a b, p.1 = "D" ++ a ++ "T" ++ b := by
  unfold processPointsLine at h
  obtain ⟨p1, _, h⟩ := exceptBind_eq_ok h
  obtain ⟨p2, _, h⟩ := exceptBind_eq_ok h
  obtain ⟨pts, hpts, h⟩ := exceptBind_eq_ok h
  rw [exceptPure_eq] at h
  injection h with h1
  rw [← h1]
  exact points_to_dict_shape _ _ hpts

theorem parseOneRegion_shape (lines : List String) (rid : String) (reg : RegionRec)
    (rest : List String) (h : parseOneRegion lines = .ok (rid, reg, rest)) :
    keysOf reg.metadata = mdKeys ∧
    ∀ p ∈ reg.points, ∃ a b, p.1 = "D" ++ a ++ "T" ++ b := by
  unfold parseOneRegion at h
  obtain ⟨rid1, _, h⟩ := exceptBind_eq_ok h
  obtain ⟨md, hmd, h⟩ := exceptBind_eq_ok h
  obtain ⟨nn, _, h⟩ := exceptBind_eq_ok h
  obtain ⟨nd, _, h⟩ := exceptBind_eq_ok h
  obtain ⟨tp, htp, h⟩ := exceptBind_eq_ok h
  rw [exceptPure_eq] at h
  injection h with h1
  injection h1 with _ h2
  injection h2 with h3 _
  rw [← h3]
  constructor
  · show keysOf (md ++ _) = mdKeys
    simp only [keysOf, List.map_append]
    rw [show List.map Prod.fst md = keysOf md from rfl,
        region_metadata_to_dict_keys _ md hmd]
    rfl
  · exact processPointsLine_shape _ tp htp

theorem dictInsert_forall {α : Type} (P : α → Prop) (d : Assoc α) (k : String) (v : α)
    (hd : ∀ e ∈ d, P e.2) (hv : P v) : ∀ e ∈ dictInsert d k v, P e.2 := by
  intro e he
  unfold dictInsert at he
  split at he
  · obtain ⟨orig, horig, heq⟩ := List.mem_map.mp he
    by_cases hc : orig.1 = k
    · rw [if_pos hc] at heq
      rw [← heq]
      exact hv
    · rw [if_neg hc] at heq
      rw [← heq]
      exact hd orig horig
  · rcases List.mem_append.mp he with hmem | hmem
    · exact hd e hmem
    · have : e = (k, v) := by simpa using hmem
      rw [this]
      exact hv

theorem parseRegions_forall (P : RegionRec → Prop)
    (hstep : ∀ lines rid reg rest, parseOneRegion lines = .ok (rid, reg, rest) → P reg) :
    ∀ (n : Nat) (acc : Assoc RegionRec) (lines : List String) (res : Assoc RegionRec)
      (rest : List String), (∀ e ∈ acc, P e.2) →
      parseRegions acc n lines = .ok (res, rest) → ∀ e ∈ res, P e.2 := by
  intro n
  induction n with
  | zero =>
    intro acc lines res rest hacc h
    simp only [parseRegions] at h
    injection h with h1
    injection h1 with h2 _
    rw [← h2]
    exact hacc
  | succ n ih =>
    intro acc lines res rest hacc h
    simp only [parseRegions] at h
    cases hone : parseOneRegion lines with
    | error e => rw [hone] at h; cases h
    | ok rr =>
      obtain ⟨rid, reg, rest1⟩ := rr
      rw [hone] at h
      exact ih _ _ _ _ (dictInsert_forall P acc rid reg hacc (hstep _ _ _ _ hone)) h

theorem pointsFold_fst (fileMd : Assoc String) (rid : String) (reg : RegionRec) :
    ∀ (ps : List (Nat × (String × String))) (st : List Row × Option Row),
    (ps.foldl (fun s pi => (s.1 ++ [rowOf fileMd rid reg pi.1 pi.2],
        some (rowOf fileMd rid reg pi.1 pi.2))) st).1 =
      st.1 ++ ps.map (fun pi => rowOf fileMd rid reg pi.1 pi.2) := by
  intro ps
  induction ps with
  | nil => intro st; simp
  | cons p ps ih => intro st; rw [List.foldl_cons, ih]; simp

theorem pointsFold_snd (fileMd : Assoc String) (rid : String) (reg : RegionRec) :
    ∀ (ps : List (Nat × (String × String))) (st : List Row × Option Row),
    ((ps.foldl (fun s pi => (s.1 ++ [rowOf fileMd rid reg pi.1 pi.2],
        some (rowOf fileMd rid reg pi.1 pi.2))) st).2 = st.2 ∧ ps = []) ∨
    (∃ pi ∈ ps, (ps.foldl (fun s pi => (s.1 ++ [rowOf fileMd rid reg pi.1 pi.2],
        some (rowOf fileMd rid reg pi.1 pi.2))) st).2 = some (rowOf fileMd rid reg pi.1 pi.2)) := by
  intro ps
  induction ps with
  | nil => intro st; exact Or.inl ⟨rfl, rfl⟩
  | cons p ps ih =>
    intro st
    rw [List.foldl_cons]
    rcases ih (st.1 ++ [rowOf fileMd rid reg p.1 p.2], some (rowOf fileMd rid reg p.1 p.2)) with
      ⟨h2, hnil⟩ | ⟨pi, hmem, h2⟩
    · subst hnil
      exact Or.inr ⟨p, by simp, h2⟩
    · exact Or.inr ⟨pi, by simp [hmem], h2⟩

theorem evrCsvLoop_fst (fileMd : Assoc String) :
    ∀ (regions : Assoc RegionRec) (st : List Row × Option Row),
    (evrCsvLoop fileMd st regions).1 =
      st.1 ++ regions.flatMap (fun rr => regionRows fileMd rr.1 rr.2) := by
  intro regions
  induction regions with
  | nil => intro st; simp [evrCsvLoop]
  | cons rr rest ih =>
    intro st
    obtain ⟨rid, reg⟩ := rr
    show (evrCsvLoop fileMd _ rest).1 = _
    rw [ih, pointsFold_fst]
    simp [regionRows, List.flatMap_cons]

theorem evrCsvLoop_snd (fileMd : Assoc String) :
    ∀ (regions : Assoc RegionRec) (st : List Row × Option Row),
    ((evrCsvLoop fileMd st regions).2 = st.2 ∧ ∀ rr ∈ regions, rr.2.points = []) ∨
    (∃ rr ∈ regions, ∃ pi ∈ rr.2.points.enum,
      (evrCsvLoop fileMd st regions).2 = some (rowOf fileMd rr.1 rr.2 pi.1 pi.2)) := by
  intro regions
  induction regions with
  | nil => intro st; exact Or.inl ⟨rfl, by simp⟩
  | cons rr rest ih =>
    intro st
    obtain ⟨rid, reg⟩ := rr
    rcases ih (reg.points.enum.foldl (fun s pi =>
        (s.1 ++ [rowOf fileMd rid reg pi.1 pi.2], some (rowOf fileMd rid reg pi.1 pi.2))) st) with
      ⟨h2, hall⟩ | ⟨rr1, hmem, pi, hpimem, h2⟩
    · rcases pointsFold_snd fileMd rid reg reg.points.enum st with ⟨hs2, hnil⟩ | ⟨pi, hpimem, hs2⟩
      · refine Or.inl ⟨?_, ?_⟩
        · show (evrCsvLoop fileMd _ rest).2 = st.2
          rw [h2, hs2]
        · intro rr0 hrr0
          rcases List.mem_cons.mp hrr0 with heq | hmem
          · rw [heq]
            show reg.points = []
            refine List.eq_nil_of_length_eq_zero ?_
            rw [← List.enum_length (l := reg.points), hnil]
            rfl
          · exact hall rr0 hmem
      · refine Or.inr ⟨(rid, reg), by simp, pi, hpimem, ?_⟩
        show (evrCsvLoop fileMd _ rest).2 = _
        rw [h2, hs2]
    · exact Or.inr ⟨rr1, by simp [hmem], pi, hpimem, h2⟩

theorem keysOf_mapVal {α β : Type} (f : α → β) (l : Assoc α) :
    keysOf (l.map (fun kv => (kv.1, f kv.2))) = keysOf l := by
  simp [keysOf, List.map_map, Function.comp]

theorem keysOf_rowOf (fileMd : Assoc String) (rid : String) (reg : RegionRec) (p : Nat)
    (xy : String × String) :
    keysOf (rowOf fileMd rid reg p xy) =
      ["region_id", "point_idx", "x", "y"] ++ keysOf fileMd ++ keysOf reg.metadata ++
        ["notes", "detection_settings"] := by
  have hfst : ∀ (l : Assoc String), l.map (Prod.fst ∘ fun kv => (kv.1, Cell.s kv.2)) = l.map Prod.fst :=
    fun l => List.map_congr_left (fun x _ => rfl)
  simp [rowOf, keysOf, List.map_append, List.map_map, hfst]

theorem alookup_map_self {α : Type} (dflt : α) :
    ∀ (r : Assoc α), (keysOf r).Nodup →
    (keysOf r).map (fun c => (c, (alookup r c).getD dflt)) = r := by
  intro r
  induction r with
  | nil => intro _; rfl
  | cons kv rest ih =>
    intro hnd
    have hnd1 : kv.1 ∉ keysOf rest ∧ (keysOf rest).Nodup := by
      have : keysOf (kv :: rest) = kv.1 :: keysOf rest := rfl
      rw [this] at hnd
      exact List.nodup_cons.mp hnd
    show (kv.1 :: keysOf rest).map _ = kv :: rest
    rw [List.map_cons]
    have hhead : (kv.1, (alookup (kv :: rest) kv.1).getD dflt) = kv := by
      simp [alookup]
    have h1 : (keysOf rest).map (fun c => (c, (alookup (kv :: rest) c).getD dflt)) =
        (keysOf rest).map (fun c => (c, (alookup rest c).getD dflt)) := by
      refine List.map_congr_left (fun c hc => ?_)
      have hne : kv.1 ≠ c := fun heq => hnd1.1 (heq ▸ hc)
      simp [alookup, hne]
    rw [hhead, h1, ih hnd1.2]

theorem reorderRow_keys (cols : List String) (r : Row) (h : keysOf r = cols)
    (hnd : cols.Nodup) : reorderRow cols r = r := by
  unfold reorderRow
  rw [← h] at hnd ⊢
  exact alookup_map_self (Cell.s "") r hnd

theorem evr_parse_shape (lines : List String) (d : EvrData) (hp : evr_parse lines = .ok d) :
    keysOf d.metadata = ["filetype", "file_format_number", "echoview_version"] ∧
    ∀ e ∈ d.regions, keysOf e.2.metadata = mdKeys ∧
      ∀ p ∈ e.2.points, ∃ a b, p.1 = "D" ++ a ++ "T" ++ b := by
  simp only [evr_parse] at hp
  split at hp
  · cases hn : pyInt (pyReadline (pyReadline lines).2).1 with
    | none => rw [hn] at hp; cases hp
    | some n =>
      simp only [hn] at hp
      cases hpr : parseRegions [] n.toNat (pyReadline (pyReadline lines).2).2 with
      | error e => rw [hpr] at hp; cases hp
      | ok rr =>
        obtain ⟨regs, rest2⟩ := rr
        rw [hpr] at hp
        injection hp with h1
        rw [← h1]
        constructor
        · rfl
        · exact parseRegions_forall
            (fun reg => keysOf reg.metadata = mdKeys ∧
              ∀ p ∈ reg.points, ∃ a b, p.1 = "D" ++ a ++ "T" ++ b)
            (fun lines1 rid1 reg1 rest1 hone => parseOneRegion_shape lines1 rid1 reg1 rest1 hone)
            n.toNat [] _ regs rest2 (by intro e he; cases he) hpr
  · cases hp

/-- The closed form of the `to_csv` row production, shared by the C9 and C4
developments: for a parsed file with at least one point, the rows are one
`rowOf` per point, in region-then-point order. -/
theorem evr_to_csv_rows_closed (lines : List String) (d : EvrData)
    (hp : evr_parse lines = .ok d) (hpos : 0 < totalPoints d) :
    evr_to_csv_rows d = .ok (d.regions.flatMap (fun rr => regionRows d.metadata rr.1 rr.2)) := by
  obtain ⟨hmeta, hregs⟩ := evr_parse_shape lines d hp
  have hnd : rowKeys.Nodup := by decide
  have hrowkeys : ∀ rid1 (reg1 : RegionRec) p xy, (rid1, reg1) ∈ d.regions →
      keysOf (rowOf d.metadata rid1 reg1 p xy) = rowKeys := by
    intro rid1 reg1 p xy hmem
    rw [keysOf_rowOf, hmeta, (hregs (rid1, reg1) hmem).1]
    rfl
  · unfold evr_to_csv_rows
    rcases hloop : evrCsvLoop d.metadata ([], none) d.regions with ⟨rows, lastOpt⟩
    have hfst := evrCsvLoop_fst d.metadata d.regions ([], none)
    rw [hloop] at hfst
    simp only [List.nil_append] at hfst
    rcases evrCsvLoop_snd d.metadata d.regions ([], none) with ⟨h2, hall⟩ | ⟨rr, hmem, pi, hpimem, h2⟩
    · exfalso
      have : totalPoints d = 0 := by
        unfold totalPoints
        refine List.sum_eq_zero ?_
        intro x hx
        obtain ⟨rr, hrr, hxeq⟩ := List.mem_map.mp hx
        rw [← hxeq, hall rr hrr]
        rfl
      omega
    · rw [hloop] at h2
      simp only at h2
      rw [h2]
      simp only
      have hlast : keysOf (rowOf d.metadata rr.1 rr.2 pi.1 pi.2) = rowKeys :=
        hrowkeys rr.1 rr.2 pi.1 pi.2 (by simpa using hmem)
      rw [hfst, hlast]
      have hid : (d.regions.flatMap (fun rr => regionRows d.metadata rr.1 rr.2)).map
          (reorderRow rowKeys) = d.regions.flatMap (fun rr => regionRows d.metadata rr.1 rr.2) := by
        have hcong : ∀ r ∈ d.regions.flatMap (fun rr => regionRows d.metadata rr.1 rr.2),
            reorderRow rowKeys r = r := by
          intro r hr
          obtain ⟨rr1, hrr1, hrrows⟩ := List.mem_flatMap.mp hr
          obtain ⟨pi1, _, hreq⟩ := List.mem_map.mp hrrows
          rw [← hreq]
          exact reorderRow_keys rowKeys _ (hrowkeys rr1.1 rr1.2 pi1.1 pi1.2 hrr1) hnd
        rw [List.map_congr_left hcong]
        exact List.map_id _
      rw [hid]

/-- C9 (amended): for every parsed region file with at least one point, the
CSV exporter produces exactly the closed-form row list: one row per point,
in region-then-point order, each row literally containing `region_id`, the
point index, `x`, `y`, the file metadata, every region-metadata field, and
the notes and detection-settings lists embedded as one composite value each,
identical across all of that region's rows (see `rowOf`); the row count is
the total number of parsed points.  On a file with no points the exporter
does not write 0 rows: it raises `NameError` (see the counterexample). -/
theorem C9_region_csv_rows (lines : List String) (d : EvrData)
    (hp : evr_parse lines = .ok d) (hpos : 0 < totalPoints d) :
    evr_to_csv_rows d = .ok (d.regions.flatMap (fun rr => regionRows d.metadata rr.1 rr.2)) ∧
    (d.regions.flatMap (fun rr => regionRows d.metadata rr.1 rr.2)).length = totalPoints d := by
  refine ⟨evr_to_csv_rows_closed lines d hp hpos, ?_⟩
  rw [List.length_flatMap]
  unfold totalPoints
  congr 1
  refine List.map_congr_left (fun rr _ => ?_)
  simp [regionRows]

/-- C9 counterexample: a region file that parses successfully but contains
no point (`evrNoPointLines`) makes `to_csv` raise `NameError` instead of
writing zero rows: the column reordering references the loop variable `row`,
which was never assigned. -/
theorem C9_zero_point_file_errors :
    (match evr_parse evrNoPointLines with
     | .ok d => evr_to_csv_rows d
     | .error e => .error e) = .error PyErr.nameError := by decide

/-- Witness for C9: the theorem applied to the concrete one-point file
`evrFileLines`. -/
theorem C9_region_csv_rows_witness :
    evr_to_csv_rows evrFileParsedData =
      .ok (evrFileParsedData.regions.flatMap
        (fun rr => regionRows evrFileParsedData.metadata rr.1 rr.2)) ∧
    (evrFileParsedData.regions.flatMap
      (fun rr => regionRows evrFileParsedData.metadata rr.1 rr.2)).length =
        totalPoints evrFileParsedData :=
  C9_region_csv_rows evrFileLines evrFileParsedData (by decide) (by decide)

theorem mem_insertKey (ks : List String) (k k' : String) :
    k' ∈ insertKey ks k ↔ k' = k ∨ k' ∈ ks := by
  unfold insertKey
  split
  · constructor
    · exact Or.inr
    · rintro (rfl | h)
      · assumption
      · assumption
  · simp [or_comm]

theorem nodup_insertKey (ks : List String) (k : String) (h : ks.Nodup) :
    (insertKey ks k).Nodup := by
  unfold insertKey
  split
  · exact h
  · simp [List.nodup_append, h]
    assumption

theorem mem_keys_dictInsert {α : Type} (d : Assoc α) (k k' : String) (v : α) :
    k' ∈ keysOf (dictInsert d k v) ↔ k' = k ∨ k' ∈ keysOf d := by
  rw [keysOf_dictInsert]
  exact mem_insertKey _ _ _

theorem nodup_keys_dictInsert {α : Type} (d : Assoc α) (k : String) (v : α)
    (h : (keysOf d).Nodup) : (keysOf (dictInsert d k v)).Nodup := by
  rw [keysOf_dictInsert]
  exact nodup_insertKey _ _ h

theorem alookup_not_mem {α : Type} : ∀ (d : Assoc α) (k : String), k ∉ keysOf d →
    alookup d k = none := by
  intro d
  induction d with
  | nil => intro k _; rfl
  | cons kv rest ih =>
    intro k hk
    have h1 : kv.1 ≠ k := fun heq => hk (by rw [← heq]; exact List.mem_cons_self _ _)
    show alookup (kv :: rest) k = none
    unfold alookup
    rw [if_neg h1]
    exact ih k (fun hmem => hk (List.mem_cons_of_mem _ hmem))

theorem alookup_mapSet_ne {α : Type} : ∀ (d : Assoc α) (k k' : String) (v : α), k' ≠ k →
    alookup (d.map (fun kv => if kv.1 = k then (k, v) else kv)) k' = alookup d k' := by
  intro d
  induction d with
  | nil => intro k k' v _; rfl
  | cons kv rest ih =>
    intro k k' v hne
    simp only [List.map_cons]
    by_cases hk : kv.1 = k
    · rw [if_pos hk]
      show alookup ((k, v) :: _) k' = alookup (kv :: rest) k'
      unfold alookup
      rw [if_neg (fun h => hne h.symm), if_neg (by rw [hk]; exact fun h => hne h.symm)]
      exact ih k k' v hne
    · rw [if_neg hk]
      show alookup (kv :: _) k' = alookup (kv :: rest) k'
      unfold alookup
      by_cases hkv : kv.1 = k'
      · rw [if_pos hkv, if_pos hkv]
      · rw [if_neg hkv, if_neg hkv]
        exact ih k k' v hne

theorem alookup_mapSet_self {α : Type} : ∀ (d : Assoc α) (k : String) (v : α), k ∈ keysOf d →
    alookup (d.map (fun kv => if kv.1 = k then (k, v) else kv)) k = some v := by
  intro d
  induction d with
  | nil => intro k v h; cases h
  | cons kv rest ih =>
    intro k v hmem
    simp only [List.map_cons]
    by_cases hk : kv.1 = k
    · rw [if_pos hk]
      show alookup ((k, v) :: _) k = some v
      unfold alookup
      rw [if_pos rfl]
    · rw [if_neg hk]
      show alookup (kv :: _) k = some v
      unfold alookup
      rw [if_neg hk]
      refine ih k v ?_
      rcases List.mem_cons.mp hmem with h | h
      · exact absurd h.symm hk
      · exact h

theorem alookup_append_self {α : Type} : ∀ (d : Assoc α) (k : String) (v : α), k ∉ keysOf d →
    alookup (d ++ [(k, v)]) k = some v := by
  intro d
  induction d with
  | nil => intro k v _; simp [alookup]
  | cons kv rest ih =>
    intro k v hmem
    show alookup (kv :: (rest ++ [(k, v)])) k = some v
    unfold alookup
    have h1 : kv.1 ≠ k := fun heq => hmem (by rw [← heq]; exact List.mem_cons_self _ _)
    rw [if_neg h1]
    exact ih k v (fun hm => hmem (List.mem_cons_of_mem _ hm))

theorem alookup_append_ne {α : Type} : ∀ (d : Assoc α) (k k' : String) (v : α), k' ≠ k →
    alookup (d ++ [(k, v)]) k' = alookup d k' := by
  intro d
  induction d with
  | nil =>
    intro k k' v hne
    show alookup [(k, v)] k' = alookup [] k'
    unfold alookup
    rw [if_neg (fun h => hne h.symm)]
    rfl
  | cons kv rest ih =>
    intro k k' v hne
    show alookup (kv :: (rest ++ [(k, v)])) k' = alookup (kv :: rest) k'
    unfold alookup
    by_cases hkv : kv.1 = k'
    · rw [if_pos hkv, if_pos hkv]
    · rw [if_neg hkv, if_neg hkv]
      exact ih k k' v hne

theorem alookup_dictInsert_self {α : Type} (d : Assoc α) (k : String) (v : α) :
    alookup (dictInsert d k v) k = some v := by
  unfold dictInsert
  split
  · exact alookup_mapSet_self d k v (by assumption)
  · exact alookup_append_self d k v (by assumption)

theorem alookup_dictInsert_ne {α : Type} (d : Assoc α) (k k' : String) (v : α) (hne : k' ≠ k) :
    alookup (dictInsert d k v) k' = alookup d k' := by
  unfold dictInsert
  split
  · exact alookup_mapSet_ne d k k' v hne
  · exact alookup_append_ne d k k' v hne

theorem mem_keys_copyInto {α : Type} : ∀ (s t : Assoc α) (k : String),
    k ∈ keysOf (copyInto t s) ↔ k ∈ keysOf t ∨ k ∈ keysOf s := by
  intro s
  induction s with
  | nil => intro t k; simp [copyInto, keysOf]
  | cons kv rest ih =>
    intro t k
    show k ∈ keysOf (copyInto (dictInsert t kv.1 kv.2) rest) ↔ _
    rw [ih, mem_keys_dictInsert]
    show _ ↔ k ∈ keysOf t ∨ k ∈ kv.1 :: keysOf rest
    simp [List.mem_cons]
    tauto

theorem nodup_keys_copyInto {α : Type} : ∀ (s t : Assoc α), (keysOf t).Nodup →
    (keysOf (copyInto t s)).Nodup := by
  intro s
  induction s with
  | nil => intro t h; exact h
  | cons kv rest ih =>
    intro t h
    exact ih _ (nodup_keys_dictInsert _ _ _ h)

theorem alookup_copyInto {α : Type} : ∀ (s t : Assoc α) (k : String), (keysOf s).Nodup →
    alookup (copyInto t s) k = if k ∈ keysOf s then alookup s k else alookup t k := by
  intro s
  induction s with
  | nil => intro t k _; simp [copyInto, keysOf]
  | cons kv rest ih =>
    intro t k hnd
    have hnd1 : kv.1 ∉ keysOf rest ∧ (keysOf rest).Nodup := by
      have : keysOf (kv :: rest) = kv.1 :: keysOf rest := rfl
      rw [this] at hnd
      exact List.nodup_cons.mp hnd
    show alookup (copyInto (dictInsert t kv.1 kv.2) rest) k = _
    rw [ih _ k hnd1.2]
    by_cases hmem : k ∈ keysOf rest
    · rw [if_pos hmem]
      have hne : kv.1 ≠ k := fun heq => hnd1.1 (heq ▸ hmem)
      rw [if_pos (show k ∈ keysOf (kv :: rest) from List.mem_cons_of_mem _ hmem)]
      show alookup rest k = alookup (kv :: rest) k
      unfold alookup
      rw [if_neg hne]
      cases rest <;> rfl
    · rw [if_neg hmem]
      by_cases hk : k = kv.1
      · rw [hk, alookup_dictInsert_self,
            if_pos (show kv.1 ∈ keysOf (kv :: rest) from List.mem_cons_self _ _)]
        show some kv.2 = alookup (kv :: rest) kv.1
        unfold alookup
        rw [if_pos rfl]
      · rw [alookup_dictInsert_ne _ _ _ _ hk,
            if_neg (show k ∉ keysOf (kv :: rest) by
              intro hm
              rcases List.mem_cons.mp hm with h | h
              · exact hk h
              · exact hmem h)]

theorem mem_foldl_insertKey : ∀ (ks init : List String) (k : String),
    k ∈ ks.foldl insertKey init ↔ k ∈ init ∨ k ∈ ks := by
  intro ks
  induction ks with
  | nil => intro init k; simp
  | cons k0 rest ih =>
    intro init k
    rw [List.foldl_cons, ih, mem_insertKey]
    simp [List.mem_cons]
    tauto

theorem nodup_foldl_insertKey : ∀ (ks init : List String), init.Nodup →
    (ks.foldl insertKey init).Nodup := by
  intro ks
  induction ks with
  | nil => intro init h; exact h
  | cons k0 rest ih =>
    intro init h
    rw [List.foldl_cons]
    exact ih _ (nodup_insertKey _ _ h)

theorem mem_colUnion {α : Type} : ∀ (rows : List (Assoc α)) (k : String),
    k ∈ colUnion rows ↔ ∃ r ∈ rows, k ∈ keysOf r := by
  have aux : ∀ (rows : List (Assoc α)) (init : List String) (k : String),
      k ∈ rows.foldl (fun cols r => (keysOf r).foldl insertKey cols) init ↔
        k ∈ init ∨ ∃ r ∈ rows, k ∈ keysOf r := by
    intro rows
    induction rows with
    | nil => intro init k; simp
    | cons r rest ih =>
      intro init k
      rw [List.foldl_cons, ih, mem_foldl_insertKey]
      simp [List.mem_cons]
      tauto
  intro rows k
  rw [show colUnion rows = rows.foldl (fun cols r => (keysOf r).foldl insertKey cols) [] from rfl,
      aux]
  simp

theorem nodup_colUnion {α : Type} (rows : List (Assoc α)) : (colUnion rows).Nodup := by
  have aux : ∀ (rows1 : List (Assoc α)) (init : List String), init.Nodup →
      (rows1.foldl (fun cols r => (keysOf r).foldl insertKey cols) init).Nodup := by
    intro rows1
    induction rows1 with
    | nil => intro init h; exact h
    | cons r rest ih =>
      intro init h
      rw [List.foldl_cons]
      exact ih _ (nodup_foldl_insertKey _ _ h)
  exact aux rows [] List.nodup_nil

theorem keysOf_alignRow (cols : List String) (r : Assoc Val) :
    keysOf (alignRow cols r) = cols := by
  unfold alignRow keysOf
  rw [List.map_map]
  rw [List.map_congr_left (fun (c : String) _ => rfl :
    ∀ c ∈ cols, (Prod.fst ∘ fun c => (c, (alookup r c).getD Val.nan)) c = (fun c => c) c)]
  exact List.map_id _

theorem alookup_cons {α : Type} (kv : String × α) (rest : Assoc α) (k : String) :
    alookup (kv :: rest) k = if kv.1 = k then some kv.2 else alookup rest k := rfl

theorem alookup_alignRow : ∀ (cols : List String) (r : Assoc Val) (k : String), k ∈ cols →
    alookup (alignRow cols r) k = some ((alookup r k).getD Val.nan) := by
  intro cols
  induction cols with
  | nil => intro r k hk; cases hk
  | cons c cs ih =>
    intro r k hk
    show alookup ((c, (alookup r c).getD Val.nan) :: alignRow cs r) k = _
    simp only [alookup_cons]
    by_cases hc : c = k
    · subst hc
      rw [if_pos rfl]
    · rw [if_neg hc]
      refine ih r k ?_
      rcases List.mem_cons.mp hk with h | h
      · exact absurd h.symm hc
      · exact h

theorem tags_of_row (row_dict src : Assoc Val) (vs ch : String)
    (hnd : (keysOf src).Nodup) :
    alookup (get_row_from_source row_dict src vs ch).2 "value_source" = some (Val.s vs) ∧
    alookup (get_row_from_source row_dict src vs ch).2 "channel" = some (Val.s ch) := by
  show alookup (copyInto row_dict
      (dictInsert (dictInsert src "value_source" (Val.s vs)) "channel" (Val.s ch))) "value_source" = _ ∧
    alookup (copyInto row_dict
      (dictInsert (dictInsert src "value_source" (Val.s vs)) "channel" (Val.s ch))) "channel" = _
  have hnd1 : (keysOf (dictInsert (dictInsert src "value_source" (Val.s vs)) "channel" (Val.s ch))).Nodup :=
    nodup_keys_dictInsert _ _ _ (nodup_keys_dictInsert _ _ _ hnd)
  constructor
  · rw [alookup_copyInto _ _ _ hnd1,
        if_pos (by
          rw [mem_keys_dictInsert, mem_keys_dictInsert]
          right; left; rfl),
        alookup_dictInsert_ne _ _ _ _ (by decide), alookup_dictInsert_self]
  · rw [alookup_copyInto _ _ _ hnd1,
        if_pos (by rw [mem_keys_dictInsert]; left; rfl),
        alookup_dictInsert_self]

theorem nodup_keys_update2 (src : Assoc Val) (vs ch : String) (h : (keysOf src).Nodup) :
    (keysOf (get_row_from_source src src vs ch).1).Nodup := by
  exact nodup_keys_dictInsert _ _ _ (nodup_keys_dictInsert _ _ _ h)

theorem ecs_rows_loop_length (row_dict : Assoc Val) :
    ∀ (scal : Assoc (Assoc Val)) (fs lc : Assoc Val),
    (ecs_rows_loop row_dict fs lc scal).length = 3 * scal.length := by
  intro scal
  induction scal with
  | nil => intro fs lc; rfl
  | cons c rest ih =>
    intro fs lc
    obtain ⟨cal, cs⟩ := c
    show (_ :: _ :: _ :: ecs_rows_loop row_dict _ _ rest).length = _
    simp only [List.length_cons, ih, List.length_cons]
    omega

theorem ecs_rows_loop_tags (row_dict : Assoc Val) :
    ∀ (scal : Assoc (Assoc Val)) (fs lc : Assoc Val),
    (keysOf fs).Nodup → (keysOf lc).Nodup → (∀ c ∈ scal, (keysOf c.2).Nodup) →
    (ecs_rows_loop row_dict fs lc scal).map
        (fun r => (alookup r "value_source", alookup r "channel")) =
      scal.flatMap (fun c => [(some (Val.s "FILESET"), some (Val.s c.1)),
        (some (Val.s "SOURCECAL"), some (Val.s c.1)),
        (some (Val.s "LOCALSET"), some (Val.s c.1))]) := by
  intro scal
  induction scal with
  | nil => intro fs lc _ _ _; rfl
  | cons c rest ih =>
    intro fs lc hfs hlc hsc
    obtain ⟨cal, cs⟩ := c
    have hcs : (keysOf cs).Nodup := hsc (cal, cs) (List.mem_cons_self _ _)
    show ((get_row_from_source row_dict fs "FILESET" cal).2 ::
        (get_row_from_source row_dict cs "SOURCECAL" cal).2 ::
        (get_row_from_source row_dict lc "LOCALSET" cal).2 ::
        ecs_rows_loop row_dict (get_row_from_source row_dict fs "FILESET" cal).1
          (get_row_from_source row_dict lc "LOCALSET" cal).1 rest).map _ = _
    simp only [List.map_cons, List.flatMap_cons]
    rw [(tags_of_row row_dict fs "FILESET" cal hfs).1,
        (tags_of_row row_dict fs "FILESET" cal hfs).2,
        (tags_of_row row_dict cs "SOURCECAL" cal hcs).1,
        (tags_of_row row_dict cs "SOURCECAL" cal hcs).2,
        (tags_of_row row_dict lc "LOCALSET" cal hlc).1,
        (tags_of_row row_dict lc "LOCALSET" cal hlc).2,
        ih (get_row_from_source row_dict fs "FILESET" cal).1
          (get_row_from_source row_dict lc "LOCALSET" cal).1
          (by exact nodup_keys_dictInsert _ _ _ (nodup_keys_dictInsert _ _ _ hfs))
          (by exact nodup_keys_dictInsert _ _ _ (nodup_keys_dictInsert _ _ _ hlc))
          (fun c hc => hsc c (List.mem_cons_of_mem _ hc))]
    rfl

theorem mem_keys_fromKeysNan : ∀ (ks : List String) (k : String),
    k ∈ keysOf (fromKeysNan ks) ↔ k ∈ ks := by
  have aux : ∀ (ks : List String) (init : Assoc Val) (k : String),
      k ∈ keysOf (ks.foldl (fun acc k' => dictInsert acc k' Val.nan) init) ↔
        k ∈ keysOf init ∨ k ∈ ks := by
    intro ks
    induction ks with
    | nil => intro init k; simp
    | cons k0 rest ih =>
      intro init k
      rw [List.foldl_cons, ih, mem_keys_dictInsert]
      simp [List.mem_cons]
      tauto
  intro ks k
  rw [show fromKeysNan ks = ks.foldl (fun acc k' => dictInsert acc k' Val.nan) [] from rfl, aux]
  simp [keysOf]

theorem keys_row_mem (row_dict src : Assoc Val) (vs ch : String) (k : String) :
    k ∈ keysOf (get_row_from_source row_dict src vs ch).2 ↔
      k ∈ keysOf row_dict ∨ k = "channel" ∨ k = "value_source" ∨ k ∈ keysOf src := by
  show k ∈ keysOf (copyInto row_dict
    (dictInsert (dictInsert src "value_source" (Val.s vs)) "channel" (Val.s ch))) ↔ _
  rw [mem_keys_copyInto, mem_keys_dictInsert, mem_keys_dictInsert]

theorem keys_src1_mem (row_dict src : Assoc Val) (vs ch : String) (k : String) :
    k ∈ keysOf (get_row_from_source row_dict src vs ch).1 ↔
      k = "channel" ∨ k = "value_source" ∨ k ∈ keysOf src := by
  show k ∈ keysOf (dictInsert (dictInsert src "value_source" (Val.s vs)) "channel" (Val.s ch)) ↔ _
  rw [mem_keys_dictInsert, mem_keys_dictInsert]

theorem ecs_rows_loop_mem (row_dict : Assoc Val) :
    ∀ (scal : Assoc (Assoc Val)) (fs lc : Assoc Val) (k : String),
    (∃ r ∈ ecs_rows_loop row_dict fs lc scal, k ∈ keysOf r) ↔
      (scal ≠ [] ∧ (k ∈ keysOf row_dict ∨ k ∈ keysOf fs ∨ k ∈ keysOf lc ∨
        k = "value_source" ∨ k = "channel" ∨ ∃ c ∈ scal, k ∈ keysOf c.2)) := by
  intro scal
  induction scal with
  | nil => intro fs lc k; simp [ecs_rows_loop]
  | cons c rest ih =>
    intro fs lc k
    obtain ⟨cal, cs⟩ := c
    have hGH : (∃ c ∈ rest, k ∈ keysOf c.2) → rest ≠ [] :=
      fun ⟨c, hc, _⟩ => List.ne_nil_of_mem hc
    show (∃ r ∈ (get_row_from_source row_dict fs "FILESET" cal).2 ::
        (get_row_from_source row_dict cs "SOURCECAL" cal).2 ::
        (get_row_from_source row_dict lc "LOCALSET" cal).2 ::
        ecs_rows_loop row_dict (get_row_from_source row_dict fs "FILESET" cal).1
          (get_row_from_source row_dict lc "LOCALSET" cal).1 rest, k ∈ keysOf r) ↔ _
    rw [List.exists_mem_cons_iff, List.exists_mem_cons_iff, List.exists_mem_cons_iff,
        ih, keys_row_mem, keys_row_mem, keys_row_mem, keys_src1_mem, keys_src1_mem]
    simp only [List.exists_mem_cons_iff, ne_eq, List.cons_ne_nil, not_false_eq_true, true_and,
      reduceCtorEq]
    constructor
    · rintro (h | h | h | ⟨_, h⟩) <;> tauto
    · intro h
      rcases h with h | h | h | h | h | h | h
      · tauto
      · tauto
      · tauto
      · tauto
      · tauto
      · tauto
      · exact Or.inr (Or.inr (Or.inr ⟨hGH h, by tauto⟩))

/-- C5: `CalibrationParser.to_csv` on one parsed record.  With the
`DataFrame` alignment applied, (1) exactly 3 rows are emitted per source-cal
entry; (2) every emitted row has the identical column list `cols`; (3) the
column set is exactly the id keys (`value_source`, `channel`) together with
the union of the fileset keys, ALL source-cal entries' keys, and the localcal
keys — even when a later source-cal entry contains keys absent from the
first entry, which enter via `DataFrame` alignment with `NaN` fill; (4) the
three rows of entry `cal` are tagged `FILESET`/`SOURCECAL`/`LOCALSET` in
order, each with `channel = cal`.  Requires at least one source-cal entry
(an empty one makes the source raise `IndexError` on `list(...)[0]`). -/
theorem C5_cal_csv_shape (fileset : Assoc Val) (scal : Assoc (Assoc Val)) (lc : Assoc Val)
    (cols : List String) (rows : List (Assoc Val))
    (hnfs : (keysOf fileset).Nodup) (hnlc : (keysOf lc).Nodup)
    (hnsc : ∀ c ∈ scal, (keysOf c.2).Nodup)
    (hok : ecs_to_csv_rows fileset scal lc = .ok (cols, rows)) :
    rows.length = 3 * scal.length ∧
    (∀ r ∈ rows, keysOf r = cols) ∧
    (∀ k, k ∈ cols ↔ k = "value_source" ∨ k = "channel" ∨ k ∈ keysOf fileset ∨
      (∃ c ∈ scal, k ∈ keysOf c.2) ∨ k ∈ keysOf lc) ∧
    rows.map (fun r => (alookup r "value_source", alookup r "channel")) =
      scal.flatMap (fun c => [(some (Val.s "FILESET"), some (Val.s c.1)),
        (some (Val.s "SOURCECAL"), some (Val.s c.1)),
        (some (Val.s "LOCALSET"), some (Val.s c.1))]) := by
  cases scal with
  | nil => cases hok
  | cons c0 rest =>
    simp only [ecs_to_csv_rows] at hok
    injection hok with h1
    rw [Prod.mk.injEq] at h1
    obtain ⟨hcols, hrows⟩ := h1
    have hiff : ∀ k, k ∈ colUnion (ecs_rows_loop
        (fromKeysNan (["value_source", "channel"] ++ keysOf fileset ++ keysOf c0.2 ++ keysOf lc))
        fileset lc (c0 :: rest)) ↔
        k = "value_source" ∨ k = "channel" ∨ k ∈ keysOf fileset ∨
          (∃ c ∈ c0 :: rest, k ∈ keysOf c.2) ∨ k ∈ keysOf lc := by
      intro k
      rw [mem_colUnion, ecs_rows_loop_mem, mem_keys_fromKeysNan,
          List.exists_mem_cons_iff]
      simp only [ne_eq, List.cons_ne_nil, not_false_eq_true, true_and, List.mem_append,
        List.mem_cons, List.mem_singleton, List.not_mem_nil, or_false]
      generalize (∃ c ∈ rest, k ∈ keysOf c.2) = G
      tauto
    refine ⟨?_, ?_, ?_, ?_⟩
    · rw [← hrows, List.length_map, ecs_rows_loop_length]
    · intro r hr
      rw [← hrows] at hr
      obtain ⟨r0, _, hreq⟩ := List.mem_map.mp hr
      rw [← hreq, keysOf_alignRow, hcols]
    · intro k
      rw [← hcols]
      exact hiff k
    · have hvs : "value_source" ∈ colUnion (ecs_rows_loop
          (fromKeysNan (["value_source", "channel"] ++ keysOf fileset ++ keysOf c0.2 ++ keysOf lc))
          fileset lc (c0 :: rest)) := (hiff _).mpr (Or.inl rfl)
      have hch : "channel" ∈ colUnion (ecs_rows_loop
          (fromKeysNan (["value_source", "channel"] ++ keysOf fileset ++ keysOf c0.2 ++ keysOf lc))
          fileset lc (c0 :: rest)) := (hiff _).mpr (Or.inr (Or.inl rfl))
      rw [← hrows, List.map_map]
      rw [List.map_congr_left (fun r0 _ => by
        show ((fun r => (alookup r "value_source", alookup r "channel")) ∘
          alignRow (colUnion _)) r0 =
          ((fun p : Option Val × Option Val =>
              (some (p.1.getD Val.nan), some (p.2.getD Val.nan))) ∘
            (fun r => (alookup r "value_source", alookup r "channel"))) r0
        simp only [Function.comp]
        rw [alookup_alignRow _ _ _ hvs, alookup_alignRow _ _ _ hch])]
      rw [← List.map_map, ecs_rows_loop_tags _ _ fileset lc hnfs hnlc hnsc]
      rw [List.map_flatMap]
      rfl

/-- Witness for C5: the theorem applied to the concrete record with a ragged
second source-cal entry. -/
theorem C5_cal_csv_shape_witness :
    c5Out.2.length = 3 * c5Scal.length ∧
    c5Out.2.map (fun r => (alookup r "value_source", alookup r "channel")) =
      c5Scal.flatMap (fun c => [(some (Val.s "FILESET"), some (Val.s c.1)),
        (some (Val.s "SOURCECAL"), some (Val.s c.1)),
        (some (Val.s "LOCALSET"), some (Val.s c.1))]) :=
  ⟨(C5_cal_csv_shape c5Fileset c5Scal c5Local c5Out.1 c5Out.2 (by decide) (by decide)
      (by decide) (by decide)).1,
   (C5_cal_csv_shape c5Fileset c5Scal c5Local c5Out.1 c5Out.2 (by decide) (by decide)
      (by decide) (by decide)).2.2.2⟩

theorem parseRatPos_nondigit (c : Char) (rest : List Char) (h1 : ¬ c.isDigit = true) :
    parseRatPos (c :: rest) = none := by
  unfold parseRatPos takeDigits
  rw [if_neg h1]
  simp

theorem parseRat_D_none (a b : String) : parseRat ("D" ++ a ++ "T" ++ b) = none := by
  have h : ("D" ++ a ++ "T" ++ b).toList = 'D' :: (a.data ++ ("T".data ++ b.data)) := by
    show ("D" ++ a ++ "T" ++ b).data = _
    rw [String.data_append, String.data_append, String.data_append]
    simp [List.append_assoc]
  simp only [parseRat, h]
  rw [if_neg (by decide)]
  exact parseRatPos_nondigit 'D' _ (by decide)

theorem alookup_rowOf_rid (md : Assoc String) (rid : String) (reg : RegionRec) (p : Nat)
    (xy : String × String) :
    alookup (rowOf md rid reg p xy) "region_id" = some (Cell.s rid) := rfl

theorem alookup_rowOf_x (md : Assoc String) (rid : String) (reg : RegionRec) (p : Nat)
    (xy : String × String) :
    alookup (rowOf md rid reg p xy) "x" = some (Cell.s xy.1) := rfl

theorem alookup_rowOf_y (md : Assoc String) (rid : String) (reg : RegionRec) (p : Nat)
    (xy : String × String) :
    alookup (rowOf md rid reg p xy) "y" = some (Cell.s xy.2) := rfl

theorem nodup_keys_parseRegions : ∀ (n : Nat) (acc : Assoc RegionRec) (lines : List String)
    (res : Assoc RegionRec) (rest : List String),
    parseRegions acc n lines = .ok (res, rest) → (keysOf acc).Nodup → (keysOf res).Nodup := by
  intro n
  induction n with
  | zero =>
    intro acc lines res rest h hacc
    simp only [parseRegions] at h
    injection h with h1
    injection h1 with h2 _
    rw [← h2]
    exact hacc
  | succ n ih =>
    intro acc lines res rest h hacc
    simp only [parseRegions] at h
    cases hone : parseOneRegion lines with
    | error e => rw [hone] at h; cases h
    | ok rr =>
      obtain ⟨rid, reg, rest1⟩ := rr
      rw [hone] at h
      exact ih _ _ _ _ h (nodup_keys_dictInsert _ _ _ hacc)

theorem evr_parse_nodup (lines : List String) (d : EvrData) (hp : evr_parse lines = .ok d) :
    (keysOf d.regions).Nodup := by
  simp only [evr_parse] at hp
  split at hp
  · cases hn : pyInt (pyReadline (pyReadline lines).2).1 with
    | none => rw [hn] at hp; cases hp
    | some n =>
      simp only [hn] at hp
      cases hpr : parseRegions [] n.toNat (pyReadline (pyReadline lines).2).2 with
      | error e => rw [hpr] at hp; cases hp
      | ok rr =>
        obtain ⟨regs, rest2⟩ := rr
        rw [hpr] at hp
        injection hp with h1
        rw [← h1]
        exact nodup_keys_parseRegions n.toNat [] _ regs rest2 hpr List.nodup_nil
  · cases hp

theorem flatMap_if_notmem {β : Type} (g : String × RegionRec → List β) :
    ∀ (l : Assoc RegionRec) (rid : String), rid ∉ keysOf l →
    l.flatMap (fun rr => if rr.1 = rid then g rr else []) = [] := by
  intro l
  induction l with
  | nil => intro rid _; rfl
  | cons e rest ih =>
    intro rid hmem
    rw [List.flatMap_cons]
    have he : e.1 ≠ rid := fun heq => hmem (by rw [← heq]; exact List.mem_cons_self _ _)
    rw [if_neg he, List.nil_append]
    exact ih rid (fun hm => hmem (List.mem_cons_of_mem _ hm))

theorem flatMap_if_unique {β : Type} (g : String × RegionRec → List β) :
    ∀ (l : Assoc RegionRec) (rid : String) (reg : RegionRec),
    (keysOf l).Nodup → alookup l rid = some reg →
    l.flatMap (fun rr => if rr.1 = rid then g rr else []) = g (rid, reg) := by
  intro l
  induction l with
  | nil => intro rid reg _ h; cases h
  | cons e rest ih =>
    intro rid reg hnd hl
    have hnd1 : e.1 ∉ keysOf rest ∧ (keysOf rest).Nodup := by
      have hks : keysOf (e :: rest) = e.1 :: keysOf rest := rfl
      rw [hks] at hnd
      exact List.nodup_cons.mp hnd
    rw [List.flatMap_cons]
    by_cases he : e.1 = rid
    · rw [if_pos he]
      have h2 : e.2 = reg := by
        have hself : alookup (e :: rest) rid = some e.2 := by rw [alookup_cons, if_pos he]
        rw [hl] at hself
        injection hself with h3
        exact h3.symm
      have hrest : rest.flatMap (fun rr => if rr.1 = rid then g rr else []) = [] :=
        flatMap_if_notmem g rest rid (he ▸ hnd1.1)
      rw [hrest, List.append_nil]
      have : e = (rid, reg) := by rw [← he, ← h2]
      rw [this]
    · rw [if_neg he, List.nil_append]
      refine ih rid reg hnd1.2 ?_
      rw [alookup_cons, if_neg he] at hl
      exact hl

theorem evr_to_csv_rows_ok_pos (d : EvrData) (rows : List Row)
    (h : evr_to_csv_rows d = .ok rows) : 0 < totalPoints d := by
  by_contra hneg
  have hzero : totalPoints d = 0 := by omega
  have hall : ∀ rr ∈ d.regions, rr.2.points = [] := by
    intro rr hrr
    have hx : rr.2.points.length = 0 := by
      have hsum := List.sum_eq_zero_iff.mp hzero
      exact hsum _ (List.mem_map.mpr ⟨rr, hrr, rfl⟩)
    exact List.eq_nil_of_length_eq_zero hx
  rcases evrCsvLoop_snd d.metadata d.regions ([], none) with ⟨h2, _⟩ | ⟨rr, hmem, pi, hpimem, _⟩
  · unfold evr_to_csv_rows at h
    rcases hloop : evrCsvLoop d.metadata ([], none) d.regions with ⟨rows1, lastOpt⟩
    rw [hloop] at h h2
    simp only at h2
    rw [h2] at h
    cases h
  · rw [hall rr hmem] at hpimem
    cases hpimem

theorem flatMap_congr_mem {α β : Type} : ∀ (l : List α) (f g : α → List β),
    (∀ a ∈ l, f a = g a) → l.flatMap f = l.flatMap g := by
  intro l
  induction l with
  | nil => intro f g _; rfl
  | cons a rest ih =>
    intro f g h
    rw [List.flatMap_cons, List.flatMap_cons, h a (List.mem_cons_self _ _),
        ih f g (fun x hx => h x (List.mem_cons_of_mem _ hx))]

/-- C4 (amended): for a parsed region file whose region ids are all numeric,
with `rid` the unique id whose numeric value is `q`, and whose `y`
coordinates are all numeric, the JSON read path returns the parsed point
strings while the CSV read path returns the same points with `y` parsed as a
number by `read_csv` type inference (the `x` strings, shaped `D...T...`, are
not numeric and survive as strings).  The two sequences agree up to this
numeric parsing of `y` — they are NOT identical Python values (see the
counterexample). -/
theorem C4_get_points_roundtrip (lines : List String) (d : EvrData) (rows : List Row)
    (rid : String) (reg : RegionRec) (q : Int)
    (hp : evr_parse lines = .ok d)
    (hrows : evr_to_csv_rows d = .ok rows)
    (hreg : alookup d.regions rid = some reg)
    (hq : parseRat rid = some (q : Rat))
    (hids : ∀ e ∈ d.regions, (parseRat e.1).isSome = true)
    (huniq : ∀ e ∈ d.regions, parseRat e.1 = some (q : Rat) → e.1 = rid)
    (hy : ∀ e ∈ d.regions, ∀ p ∈ e.2.points, (parseRat p.2).isSome = true) :
    getPointsJsonPd d rid = some (reg.points.map (fun p => (PdVal.s p.1, PdVal.s p.2))) ∧
    getPointsCsv rows q =
      reg.points.map (fun p => (PdVal.s p.1, PdVal.n ((parseRat p.2).getD 0))) := by
  have hpos := evr_to_csv_rows_ok_pos d rows hrows
  have hclosed := evr_to_csv_rows_closed lines d hp hpos
  rw [hrows] at hclosed
  injection hclosed with hrowseq
  subst hrowseq
  obtain ⟨_, hregs⟩ := evr_parse_shape lines d hp
  have hnd := evr_parse_nodup lines d hp
  have hmemR : ∀ r ∈ d.regions.flatMap (fun rr => regionRows d.metadata rr.1 rr.2),
      ∃ rr ∈ d.regions, ∃ pi ∈ rr.2.points.enum, r = rowOf d.metadata rr.1 rr.2 pi.1 pi.2 := by
    intro r hr
    obtain ⟨rr, hrr, hrrows⟩ := List.mem_flatMap.mp hr
    obtain ⟨pi, hpim, hreq⟩ := List.mem_map.mp hrrows
    exact ⟨rr, hrr, pi, hpim, hreq.symm⟩
  have hcn_rid : colNumeric (d.regions.flatMap (fun rr => regionRows d.metadata rr.1 rr.2))
      "region_id" = true := by
    unfold colNumeric colCells
    rw [List.all_eq_true]
    intro s hs
    obtain ⟨r, hr, hseq⟩ := List.mem_map.mp hs
    obtain ⟨rr, hrr, pi, _, hreq⟩ := hmemR r hr
    rw [← hseq, hreq, alookup_rowOf_rid]
    exact hids rr hrr
  have hcn_y : colNumeric (d.regions.flatMap (fun rr => regionRows d.metadata rr.1 rr.2))
      "y" = true := by
    unfold colNumeric colCells
    rw [List.all_eq_true]
    intro s hs
    obtain ⟨r, hr, hseq⟩ := List.mem_map.mp hs
    obtain ⟨rr, hrr, pi, hpim, hreq⟩ := hmemR r hr
    rw [← hseq, hreq, alookup_rowOf_y]
    refine hy rr hrr pi.2 ?_
    have := List.mem_map_of_mem Prod.snd hpim
    rw [List.enum_map_snd] at this
    exact this
  have hcn_x : d.regions.flatMap (fun rr => regionRows d.metadata rr.1 rr.2) ≠ [] →
      colNumeric (d.regions.flatMap (fun rr => regionRows d.metadata rr.1 rr.2)) "x" = false := by
    intro hne
    by_contra hc
    rw [Bool.not_eq_false] at hc
    unfold colNumeric colCells at hc
    rw [List.all_eq_true] at hc
    obtain ⟨r0, R1, hR⟩ := List.exists_cons_of_ne_nil hne
    have hr0 : r0 ∈ d.regions.flatMap (fun rr => regionRows d.metadata rr.1 rr.2) := by
      rw [hR]; exact List.mem_cons_self _ _
    obtain ⟨rr, hrr, pi, hpim, hreq⟩ := hmemR r0 hr0
    have hshape : ∃ a b, pi.2.1 = "D" ++ a ++ "T" ++ b := by
      refine (hregs rr hrr).2 pi.2 ?_
      have := List.mem_map_of_mem Prod.snd hpim
      rw [List.enum_map_snd] at this
      exact this
    obtain ⟨a, b, hab⟩ := hshape
    have := hc (cellToCsv ((alookup r0 "x").getD (Cell.s ""))) (List.mem_map_of_mem _ hr0)
    rw [hreq, alookup_rowOf_x] at this
    show False
    have hxval : cellToCsv ((some (Cell.s pi.2.1)).getD (Cell.s "")) = pi.2.1 := rfl
    rw [hxval, hab, parseRat_D_none] at this
    cases this
  constructor
  · unfold getPointsJsonPd getPointsJson
    rw [hreg]
    rfl
  · unfold getPointsCsv
    rw [List.filter_flatMap]
    rw [flatMap_congr_mem _ _ (fun rr => if rr.1 = rid then regionRows d.metadata rr.1 rr.2 else [])
      (by
        intro rr hrr
        show _ = if rr.1 = rid then regionRows d.metadata rr.1 rr.2 else []
        by_cases he : rr.1 = rid
        · rw [if_pos he]
          refine List.filter_eq_self.mpr ?_
          intro r hr
          obtain ⟨pi, _, hreq⟩ := List.mem_map.mp hr
          rw [← hreq]
          rw [decide_eq_true_eq]
          unfold readCellVal
          rw [alookup_rowOf_rid, hcn_rid, if_pos rfl]
          show PdVal.n ((parseRat rr.1).getD 0) = PdVal.n (q : Rat)
          rw [he, hq]
          rfl
        · rw [if_neg he]
          rw [List.filter_eq_nil_iff]
          intro r hr
          obtain ⟨pi, _, hreq⟩ := List.mem_map.mp hr
          rw [← hreq]
          rw [decide_eq_true_eq]
          unfold readCellVal
          rw [alookup_rowOf_rid, hcn_rid, if_pos rfl]
          intro hcontra
          replace hcontra : PdVal.n ((parseRat rr.1).getD 0) = PdVal.n (q : Rat) := hcontra
          obtain ⟨v, hv⟩ := Option.isSome_iff_exists.mp (hids rr hrr)
          rw [hv] at hcontra
          injection hcontra with h1
          simp only [Option.getD_some] at h1
          exact he (huniq rr hrr (by rw [hv, h1]))), 
      flatMap_if_unique _ d.regions rid reg hnd hreg]
    rw [show regionRows d.metadata rid reg =
      reg.points.enum.map (fun pi => rowOf d.metadata rid reg pi.1 pi.2) from rfl]
    rw [List.map_map]
    by_cases hpts : reg.points = []
    · rw [hpts]
      rfl
    · have hmem0 : (rid, reg) ∈ d.regions := by
        have haux : ∀ (l : Assoc RegionRec), alookup l rid = some reg → (rid, reg) ∈ l := by
          intro l
          induction l with
          | nil => intro h; cases h
          | cons e rest ih =>
            intro h
            rw [alookup_cons] at h
            by_cases he : e.1 = rid
            · rw [if_pos he] at h
              injection h with h1
              have heq : e = (rid, reg) := by rw [← he, ← h1]
              rw [← heq]
              exact List.mem_cons_self _ _
            · rw [if_neg he] at h
              exact List.mem_cons_of_mem _ (ih h)
        exact haux d.regions hreg
      have hRne : d.regions.flatMap (fun rr => regionRows d.metadata rr.1 rr.2) ≠ [] := by
        have henum_ne : reg.points.enum ≠ [] := by
          intro h
          refine hpts (List.eq_nil_of_length_eq_zero ?_)
          rw [← List.enum_length (l := reg.points), h]
          rfl
        obtain ⟨pi0, hpi0⟩ := List.exists_mem_of_ne_nil _ henum_ne
        refine List.ne_nil_of_mem (a := rowOf d.metadata rid reg pi0.1 pi0.2) ?_
        exact List.mem_flatMap.mpr ⟨(rid, reg), hmem0, List.mem_map_of_mem _ hpi0⟩
      have hx := hcn_x hRne
      rw [List.map_congr_left (fun pi _ => by
        show (readCellVal _ "x" (rowOf d.metadata rid reg pi.1 pi.2),
              readCellVal _ "y" (rowOf d.metadata rid reg pi.1 pi.2)) =
          ((fun p : String × String => (PdVal.s p.1, PdVal.n ((parseRat p.2).getD 0))) ∘
            Prod.snd) pi
        unfold readCellVal
        rw [alookup_rowOf_x, alookup_rowOf_y, hx, hcn_y]
        rfl)]
      rw [← List.map_map, List.enum_map_snd]

/-- Witness for C4: the theorem applied to the concrete one-point file. -/
theorem C4_get_points_roundtrip_witness :
    getPointsJsonPd evrFileParsedData "1" =
      some (evrFileRegion.points.map (fun p => (PdVal.s p.1, PdVal.s p.2))) ∧
    getPointsCsv (evrFileParsedData.regions.flatMap
        (fun rr => regionRows evrFileParsedData.metadata rr.1 rr.2)) 1 =
      evrFileRegion.points.map (fun p => (PdVal.s p.1, PdVal.n ((parseRat p.2).getD 0))) :=
  C4_get_points_roundtrip evrFileLines evrFileParsedData _ "1" evrFileRegion 1
    (by decide) (by decide) (by decide) (by decide) (by decide) (by decide) (by decide)

/-- C4 counterexample: on the file `evrFileLines` the JSON read path yields
the point `("D20210101T0930000000", "-10.5")` with `y` the original string,
while the CSV read path yields `y` as the float `-10.5` inferred by
`read_csv`; a string and a number are not identical values, so the two
sequences differ. -/
theorem C4_json_csv_not_identical :
    evr_parse evrFileLines = .ok evrFileParsedData ∧
    getPointsJsonPd evrFileParsedData "1" =
      some [(PdVal.s "D20210101T0930000000", PdVal.s "-10.5")] ∧
    (match evr_to_csv_rows evrFileParsedData with
     | .ok rows => getPointsCsv rows 1
     | .error _ => []) = [(PdVal.s "D20210101T0930000000", PdVal.n (mkRat (-21) 2))] ∧
    (PdVal.s "-10.5" : PdVal) ≠ PdVal.n (mkRat (-21) 2) := by
  refine ⟨by decide, by decide, by decide, by decide⟩
